import Mathlib

/-!
Shallow embedding of the simple file system implemented in `src/3/sfs_api.c`
(header `src/3/sfs_api.h`), together with proofs about the claims of the
specification.

Modelling conventions:
* C arrays that live in memory (`inodes`, `fdt`, `root`, `free_blocks`) become
  function-valued fields of a state record `FS`; an array write becomes a
  pointwise functional update (`upd`).
* The emulated disk becomes `disk : Nat → Nat → Nat` (absolute block index →
  byte offset → byte value).  Data-block reads and writes (`read_blocks` /
  `write_blocks` of blocks addressed through inode pointers) act on this map.
  The metadata flushes (`write_blocks` of the inode table, the directory table
  and the bitmap at their fixed offsets, blocks 1..17 and 2153..2155, disjoint
  from the data region 18..2152) are modelled by dedicated persisted-image
  fields `diskInodes`, `diskRoot`, `diskBitmap`, `diskSuper`: the C code writes
  those regions as raw struct images and only ever reads them back whole at
  mount time, so a field-level image is a faithful model of that round trip.
* The indirect index block is stored on disk as a packed array of unsigned
  32-bit block numbers; `encodePtrs`/`decodePtrs` model that byte serialization.
* Machine integers become `Nat` (all the relevant C values are unsigned or
  guarded non-negative) and `Int` where a sentinel `-1` or a signed comparison
  matters.  An out-of-bounds C array access (undefined behaviour) is modelled
  by returning `none`: `sfs_fwrite`, `sfs_fread`, `sfs_fseek` and `sfs_remove`
  return `Option` results for exactly the accesses the source leaves unchecked.
* C `while` loops become fuel-indexed structural recursions; every call site
  passes fuel that provably dominates the loop's variant (each productive
  iteration consumes at least one byte), so the fuel-exhaustion branch is
  never reached in any proof below.
-/

/-! ### Compile-time constants from `sfs_api.h` -/

def MAX_FILENAME : Nat := 60

def BLOCK_SIZE : Nat := 1024

def NUM_INODES : Nat := 128

def NUM_FILE_INODES : Nat := NUM_INODES - 1

def NUM_DIRECT_POINTERS : Nat := 12

def PTR_SIZE : Nat := 4

def NUM_POINTERS_IN_INDIRECT : Nat := BLOCK_SIZE / PTR_SIZE + 1

def MAX_DATA_BLOCKS_PER_FILE : Nat := 12 + NUM_POINTERS_IN_INDIRECT

def MAX_DATA_BLOCKS_TOTAL : Nat := NUM_FILE_INODES * MAX_DATA_BLOCKS_PER_FILE

def MAX_DATA_BLOCKS_SCALED_DOWN : Nat := MAX_DATA_BLOCKS_TOTAL / 16

def NUM_INODE_BLOCKS : Nat := 64 * NUM_INODES / BLOCK_SIZE + 1

def NUM_DATA_BLOCKS_FOR_DIR : Nat := 64 * NUM_FILE_INODES / BLOCK_SIZE + 1

def NUM_DATA_BLOCKS_FOR_BITMAP : Nat := MAX_DATA_BLOCKS_SCALED_DOWN / BLOCK_SIZE + 1

def DATA_BLOCKS_OFFSET : Nat := 1 + NUM_DATA_BLOCKS_FOR_DIR + NUM_INODE_BLOCKS

def BITMAP_BLOCK_OFFSET : Nat := DATA_BLOCKS_OFFSET + MAX_DATA_BLOCKS_SCALED_DOWN

/-- The specification's `MAX_FILE_BYTES` = `MAX_BLOCKS_PER_FILE × BLOCK_SIZE`
with the spec's intended block count 268 = 12 + 256 (spec §3.1). -/
def MAX_FILE_BYTES : Nat := 268 * 1024

/-! ### Basic functional-memory combinators -/

/-- Pointwise update of a function-valued array: `a[i] = v`. -/
def upd {α : Type} (f : Nat → α) (i : Nat) (v : α) : Nat → α :=
  fun j => if j = i then v else f j

/-- C `memcpy(dst + doff, src + soff, n)` on byte maps. -/
def memcpy (dst : Nat → Nat) (doff : Nat) (src : Nat → Nat) (soff : Nat) (n : Nat) :
    Nat → Nat :=
  fun j => if doff ≤ j ∧ j < doff + n then src (soff + (j - doff)) else dst j

/-- Serialization of an in-memory `unsigned int` pointer array into the raw
bytes of one disk block (little endian, 4 bytes per entry), as produced by
`write_blocks(node->indirect, 1, ptr_buff)`. -/
def encodePtrs (p : Nat → Nat) : Nat → Nat :=
  fun j => p (j / 4) / 2 ^ (8 * (j % 4)) % 2 ^ 8

/-- Deserialization of one raw disk block into an `unsigned int` pointer
array, as performed by `read_blocks(node->indirect, 1, ptr_buff)`. -/
def decodePtrs (b : Nat → Nat) : Nat → Nat :=
  fun i =>
    b (4 * i) % 256 + 256 * (b (4 * i + 1) % 256) + 65536 * (b (4 * i + 2) % 256) +
      16777216 * (b (4 * i + 3) % 256)

/-! ### Data structures from `sfs_api.h` -/

/-- `superblock_t`. -/
structure Superblock where
  magic : Nat
  block_size : Nat
  fs_size : Nat
  inode_table_len : Nat
  root_dir_inode : Nat
deriving DecidableEq

/-- `inode_t`; `direct` is the 12-entry direct pointer array (indices ≥ 12
are never accessed by the source). -/
structure Inode where
  mode : Nat
  link_cnt : Nat
  size : Nat
  direct : Nat → Nat
  indirect : Nat

/-- `directory_entry_t`; the 60-byte `names` buffer is modelled by a string,
with the all-zero buffer modelled by `""`. -/
structure DirEntry where
  mode : Nat
  names : String

/-- `file_descriptor_t`; `inode = -1` marks a free descriptor slot. -/
structure FileDescriptor where
  inode : Int
  rwptr : Nat

/-- The whole in-memory and on-disk state of the file system: the global
variables of `sfs_api.c` plus the emulated disk. -/
structure FS where
  num_files : Nat
  curr_file : Nat
  super : Superblock
  inodes : Nat → Inode
  fdt : Nat → FileDescriptor
  root : Nat → DirEntry
  free_blocks : Nat → Nat
  disk : Nat → Nat → Nat
  diskSuper : Superblock
  diskInodes : Nat → Inode
  diskRoot : Nat → DirEntry
  diskBitmap : Nat → Nat

/-- An all-zero inode, the state of a C global `inode_t` at program start. -/
def zeroInode : Inode :=
  { mode := 0, link_cnt := 0, size := 0, direct := fun _ => 0, indirect := 0 }

/-- The state of the C globals at program start: every byte of every global
array is zero (so every `fdt` slot reads as `{inode := 0, rwptr := 0}` and
every directory name is empty), and the disk holds zeros. -/
def zeroFS : FS :=
  { num_files := 0
    curr_file := 0
    super := ⟨0, 0, 0, 0, 0⟩
    inodes := fun _ => zeroInode
    fdt := fun _ => ⟨0, 0⟩
    root := fun _ => ⟨0, ""⟩
    free_blocks := fun _ => 0
    disk := fun _ _ => 0
    diskSuper := ⟨0, 0, 0, 0, 0⟩
    diskInodes := fun _ => zeroInode
    diskRoot := fun _ => ⟨0, ""⟩
    diskBitmap := fun _ => 0 }

/-! ### Helper functions of `sfs_api.c` -/

/-- The scan inside `get_free_bitmap_address`: first index `k ∈ [i, i+n)`
with `fb k = 0`, else `-1`. -/
def bitmapScan (fb : Nat → Nat) (i n : Nat) : Int :=
  match n with
  | 0 => -1
  | n + 1 => if fb i = 0 then (i : Int) else bitmapScan fb (i + 1) n

/-- `get_free_bitmap_address()`: first free slot of the bitmap, `-1` if none. -/
def get_free_bitmap_address (fb : Nat → Nat) : Int :=
  bitmapScan fb 0 MAX_DATA_BLOCKS_SCALED_DOWN

/-- `init_super()`. -/
def init_super : Superblock :=
  { magic := 0xACBD0005
    block_size := BLOCK_SIZE
    inode_table_len := NUM_INODE_BLOCKS
    root_dir_inode := 0
    fs_size := BLOCK_SIZE * (1 + NUM_DATA_BLOCKS_FOR_DIR + NUM_INODE_BLOCKS +
      MAX_DATA_BLOCKS_SCALED_DOWN + NUM_DATA_BLOCKS_FOR_BITMAP) }

/-- `mksfs(int fresh)`.  The fresh branch resets, for i in [1, NUM_INODES):
only `inodes[i].link_cnt` (the other inode fields are NOT cleared by the
source), `fdt[i]`, and `root[i-1]`; it zeroes the bitmap, creates a fresh
zeroed disk and flushes all metadata.  The load branch re-reads the four
persisted regions and rebuilds `num_files` and the descriptor table. -/
def mksfs (s : FS) (fresh : Bool) : FS :=
  if fresh then
    let inodes1 : Nat → Inode := fun i =>
      if 1 ≤ i ∧ i < NUM_INODES then { s.inodes i with link_cnt := 0 } else s.inodes i
    let inodes2 := upd inodes1 0 { inodes1 0 with link_cnt := 1 }
    let fdt1 : Nat → FileDescriptor := fun i =>
      if 1 ≤ i ∧ i < NUM_INODES then ⟨-1, (s.fdt i).rwptr⟩ else s.fdt i
    let fdt2 := upd fdt1 0 ⟨0, 0⟩
    let root1 : Nat → DirEntry := fun i =>
      if i < NUM_FILE_INODES then ⟨0, ""⟩ else s.root i
    { num_files := 0
      curr_file := 0
      super := init_super
      inodes := inodes2
      fdt := fdt2
      root := root1
      free_blocks := fun _ => 0
      disk := fun _ _ => 0
      diskSuper := init_super
      diskInodes := inodes2
      diskRoot := root1
      diskBitmap := fun _ => 0 }
  else
    let inodes1 := s.diskInodes
    let fdt1 : Nat → FileDescriptor := fun i =>
      if 1 ≤ i ∧ i < NUM_INODES then ⟨-1, 0⟩ else s.fdt i
    let fdt2 := upd fdt1 0 ⟨0, 0⟩
    let count : Nat → Nat := fun n => (List.range n).countP (fun i =>
      1 ≤ i ∧ (inodes1 i).link_cnt ≠ 0)
    { s with
      num_files := count NUM_INODES
      curr_file := 0
      super := s.diskSuper
      inodes := inodes1
      fdt := fdt2
      root := s.diskRoot
      free_blocks := s.diskBitmap }

/-! ### Size query, open, close, seek -/

/-- The loop of `sfs_getfilesize`: scans every directory slot in `[i, i+n)`
and keeps overwriting `size` with `inodes[k+1].size` at every name match, so
the LAST match wins. -/
def getfilesizeAux (root : Nat → DirEntry) (inodes : Nat → Inode) (path : String)
    (i n : Nat) (size : Int) : Int :=
  match n with
  | 0 => size
  | n + 1 =>
    getfilesizeAux root inodes path (i + 1) n
      (if path = (root i).names then ((inodes (i + 1)).size : Int) else size)

/-- `sfs_getfilesize(const char* path)`.  Matches on the name field alone
(the entry's `mode` flag is not consulted). -/
def sfs_getfilesize (s : FS) (path : String) : Int :=
  getfilesizeAux s.root s.inodes path 0 NUM_FILE_INODES (-1)

/-- First directory slot in `[i, i+n)` whose name equals `name`
(the scan at the top of `sfs_fopen`; mode is not consulted). -/
def dirFindFirst (root : Nat → DirEntry) (name : String) (i n : Nat) : Option Nat :=
  match n with
  | 0 => none
  | n + 1 => if name = (root i).names then some i else dirFindFirst root name (i + 1) n

/-- The descriptor scan of `sfs_fopen`'s existing-file branch over slots
`[j, j+n)`: returns `none` if some slot already references `target`
(the duplicate-open failure), otherwise `some free_fd` where `free_fd` is
the first free slot found (or the accumulated `-1`). -/
def fopenFdScan (fdt : Nat → FileDescriptor) (target : Int) (j n : Nat)
    (free_fd : Int) : Option Int :=
  match n with
  | 0 => some free_fd
  | n + 1 =>
    if (fdt j).inode = target then none
    else
      fopenFdScan fdt target (j + 1) n
        (if free_fd = -1 ∧ (fdt j).inode = -1 then (j : Int) else free_fd)

/-- First descriptor slot in `[j, j+n)` with `inode = -1` (the inner scan of
`sfs_fopen`'s create branch). -/
def fdtFindFree (fdt : Nat → FileDescriptor) (j n : Nat) : Option Nat :=
  match n with
  | 0 => none
  | n + 1 => if (fdt j).inode = -1 then some j else fdtFindFree fdt (j + 1) n

/-- The create branch of `sfs_fopen`: scan inodes `[i, i+n)` for a free one
(`link_cnt = 0`); for each, scan the descriptor table; on success initialize
the inode (only `mode`, `link_cnt`, `size` — the stale `direct`/`indirect`
pointers are NOT cleared by the source), the directory entry and the
descriptor, bump `num_files`, persist inode table and directory. -/
def fopenCreate (s : FS) (name : String) (i n : Nat) : Int × FS :=
  match n with
  | 0 => (-1, s)
  | n + 1 =>
    if (s.inodes i).link_cnt = 0 then
      match fdtFindFree s.fdt 1 (NUM_INODES - 1) with
      | none => fopenCreate s name (i + 1) n
      | some j =>
        let inodes1 := upd s.inodes i
          { s.inodes i with mode := 1, link_cnt := 1, size := 0 }
        let root1 := upd s.root (i - 1) ⟨1, name⟩
        ((j : Int),
          { s with
            fdt := upd s.fdt j ⟨(i : Int), 0⟩
            num_files := s.num_files + 1
            inodes := inodes1
            root := root1
            diskInodes := inodes1
            diskRoot := root1 })
    else fopenCreate s name (i + 1) n

/-- `sfs_fopen(char* name)`. -/
def sfs_fopen (s : FS) (name : String) : Int × FS :=
  if MAX_FILENAME ≤ name.length then (-1, s)
  else
    match dirFindFirst s.root name 0 NUM_FILE_INODES with
    | some i =>
      match fopenFdScan s.fdt ((i : Int) + 1) 1 (NUM_INODES - 1) (-1) with
      | none => (-1, s)
      | some free_fd =>
        if free_fd = -1 then (-1, s)
        else
          let fd := free_fd.toNat
          let inodes1 := upd s.inodes (i + 1)
            { s.inodes (i + 1) with link_cnt := 1 }
          (free_fd,
            { s with
              fdt := upd s.fdt fd ⟨(i : Int) + 1, (sfs_getfilesize s name).toNat⟩
              root := upd s.root i { s.root i with mode := 1 }
              inodes := inodes1 })
    | none => fopenCreate s name 1 (NUM_INODES - 1)

/-- `sfs_fclose(int fileID)`. -/
def sfs_fclose (s : FS) (fileID : Int) : Int × FS :=
  if 0 < fileID ∧ fileID < (NUM_INODES : Int) then
    if (s.fdt fileID.toNat).inode ≠ -1 then
      (0, { s with fdt := upd s.fdt fileID.toNat ⟨-1, 0⟩ })
    else (-1, s)
  else (-1, s)

/-- `sfs_fseek(int fileID, int loc)`.  The source checks, in order:
`fileID` in range, `f->inode == -1`, `f->inode == 0`, `loc < 0`, then
dereferences `inodes[f->inode]` — an out-of-bounds access (modelled `none`)
when the stored inode number is neither `-1` nor in `[0, NUM_INODES)` —
then `loc > size` and `loc ≥ MAX_DATA_BLOCKS_PER_FILE * BLOCK_SIZE`. -/
def sfs_fseek (s : FS) (fileID loc : Int) : Option (Int × FS) :=
  if 0 < fileID ∧ fileID < (NUM_INODES : Int) then
    let f := s.fdt fileID.toNat
    if f.inode = -1 ∨ f.inode = 0 ∨ loc < 0 then some (-1, s)
    else if f.inode < 0 ∨ (NUM_INODES : Int) ≤ f.inode then none
    else if ((s.inodes f.inode.toNat).size : Int) < loc ∨
        ((MAX_DATA_BLOCKS_PER_FILE * BLOCK_SIZE : Nat) : Int) ≤ loc then
      some (-1, s)
    else some (0, { s with fdt := upd s.fdt fileID.toNat ⟨f.inode, loc.toNat⟩ })
  else some (-1, s)

/-! ### The write path -/

/-- The loop-carried state of `sfs_fwrite`'s block walk: the descriptor's
r/w pointer, the inode being mutated through `node`, the bitmap, the disk,
the local indirect-pointer buffer with its loaded flag, the running
`rwptr_size_offset` and the running `bytes_written`. -/
structure WLoop where
  rwptr : Nat
  node : Inode
  fb : Nat → Nat
  disk : Nat → Nat → Nat
  ptrBuf : Nat → Nat
  didLoad : Bool
  offs : Int
  written : Nat

/-- Locate-or-allocate step for file-relative block `cb` (the first half of
`sfs_fwrite`'s loop body).  Results:
* `none` — the source would index `free_blocks` out of bounds (an existing
  pointer outside the data region);
* `some (Sum.inl w')` — the allocator returned `-1` (or the indirect buffer
  was unavailable): the loop breaks, with any partial state change kept;
* `some (Sum.inr (be, bbuf, w'))` — bitmap slot `be` holds the target block,
  whose current contents are `bbuf` (freshly allocated blocks start from the
  zero-initialized stack buffer). -/
def writeLocate (w : WLoop) (cb : Nat) : Option (Sum WLoop (Nat × (Nat → Nat) × WLoop)) :=
  if cb < NUM_DIRECT_POINTERS then
    if 0 < w.node.direct cb then
      let a := w.node.direct cb
      if DATA_BLOCKS_OFFSET ≤ a ∧ a < DATA_BLOCKS_OFFSET + MAX_DATA_BLOCKS_SCALED_DOWN then
        some (Sum.inr (a - DATA_BLOCKS_OFFSET, w.disk a, w))
      else none
    else
      let r := get_free_bitmap_address w.fb
      if r = -1 then some (Sum.inl w)
      else
        let be := r.toNat
        some (Sum.inr (be, fun _ => 0,
          { w with
            fb := upd w.fb be 1
            node := { w.node with direct := upd w.node.direct cb (be + DATA_BLOCKS_OFFSET) } }))
  else
    let w1 : WLoop :=
      if w.node.indirect = 0 then
        let r := get_free_bitmap_address w.fb
        if r = -1 then w
        else
          { w with
            fb := upd w.fb r.toNat 1
            ptrBuf := fun _ => 0
            didLoad := true
            node := { w.node with indirect := r.toNat + DATA_BLOCKS_OFFSET } }
      else w
    if w.node.indirect = 0 ∧ get_free_bitmap_address w.fb = -1 then some (Sum.inl w)
    else if w1.didLoad = false then some (Sum.inl w1)
    else
      let ptr_address := cb - NUM_DIRECT_POINTERS
      if 0 < w1.ptrBuf ptr_address then
        let a := w1.ptrBuf ptr_address
        if DATA_BLOCKS_OFFSET ≤ a ∧ a < DATA_BLOCKS_OFFSET + MAX_DATA_BLOCKS_SCALED_DOWN then
          some (Sum.inr (a - DATA_BLOCKS_OFFSET, w1.disk a, w1))
        else none
      else
        let r := get_free_bitmap_address w1.fb
        if r = -1 then some (Sum.inl w1)
        else
          let be := r.toNat
          some (Sum.inr (be, fun _ => 0,
            { w1 with
              fb := upd w1.fb be 1
              ptrBuf := upd w1.ptrBuf ptr_address (be + DATA_BLOCKS_OFFSET) }))

/-- The while loop of `sfs_fwrite`.  `fuel` is a structural bound; every
call site passes `fuel ≥ toWrite`, which suffices because each productive
iteration consumes at least one byte.  Returns the final loop state and the
remaining `bytes_to_write` (`none` on an out-of-bounds access). -/
def writeLoop (buf : Nat → Nat) (fuel : Nat) (w : WLoop) (toWrite : Nat) :
    Option (WLoop × Nat) :=
  match fuel with
  | 0 => some (w, toWrite)
  | fuel + 1 =>
    if toWrite = 0 then some (w, toWrite)
    else
      let cb := w.rwptr / BLOCK_SIZE
      if MAX_DATA_BLOCKS_PER_FILE - 1 ≤ cb then some (w, toWrite)
      else
        match writeLocate w cb with
        | none => none
        | some (Sum.inl w1) => some (w1, toWrite)
        | some (Sum.inr (be, bbuf, w1)) =>
          let off := w1.rwptr % BLOCK_SIZE
          let chunk := min (BLOCK_SIZE - off) toWrite
          let bbuf1 := memcpy bbuf off buf w1.written chunk
          let w2 : WLoop :=
            { w1 with
              disk := upd w1.disk (be + DATA_BLOCKS_OFFSET) bbuf1
              fb := upd w1.fb be 1
              rwptr := w1.rwptr + chunk
              offs := w1.offs + (chunk : Int)
              written := w1.written + chunk }
          writeLoop buf fuel w2 (toWrite - chunk)

/-- The loop state at entry of `sfs_fwrite`: pointer and running counters
from the descriptor and inode, the indirect buffer preloaded iff the inode
already has an indirect block, and `rwptr_size_offset = rwptr - size`. -/
def fwriteInit (s : FS) (f : FileDescriptor) (nd : Inode) : WLoop :=
  { rwptr := f.rwptr, node := nd, fb := s.free_blocks, disk := s.disk,
    ptrBuf := if 0 < nd.indirect then decodePtrs (s.disk nd.indirect) else fun _ => 0,
    didLoad := decide (0 < nd.indirect),
    offs := (f.rwptr : Int) - (nd.size : Int), written := 0 }

/-- `sfs_fwrite(int fileID, const char* buf, int length)`.  Returns `none`
exactly where the source performs an unchecked out-of-bounds access:
`fdt[fileID]` for `fileID` outside `[0, NUM_INODES)` (reached only when
`length > 0`, thanks to `||` short-circuiting), `inodes[f->inode]` for a
stored inode number outside `[0, NUM_INODES)`, and the in-loop cases of
`writeLocate`. -/
def sfs_fwrite (s : FS) (fileID : Int) (buf : Nat → Nat) (length : Int) :
    Option (Int × FS) :=
  if length ≤ 0 then
    if fileID < 0 ∨ (NUM_INODES : Int) ≤ fileID then none else some (0, s)
  else if fileID < 0 ∨ (NUM_INODES : Int) ≤ fileID then none
  else
    let f := s.fdt fileID.toNat
    if f.inode ≤ 0 then some (0, s)
    else if (NUM_INODES : Int) ≤ f.inode then none
    else
      let ni := f.inode.toNat
      let nd := s.inodes ni
      if nd.size < f.rwptr ∨ MAX_DATA_BLOCKS_PER_FILE * BLOCK_SIZE ≤ f.rwptr then
        some (0, s)
      else
        let L := length.toNat
        match writeLoop buf L (fwriteInit s f nd) L with
        | none => none
        | some (w, rem) =>
          if rem ≠ L then
            let node1 :=
              if 0 < w.offs then { w.node with size := w.node.size + w.offs.toNat }
              else w.node
            let disk1 :=
              if w.didLoad then upd w.disk node1.indirect (encodePtrs w.ptrBuf)
              else w.disk
            let inodes1 := upd s.inodes ni node1
            some ((w.written : Int),
              { s with
                inodes := inodes1
                free_blocks := w.fb
                disk := disk1
                fdt := upd s.fdt fileID.toNat ⟨f.inode, w.rwptr⟩
                diskInodes := inodes1
                diskBitmap := w.fb })
          else
            some ((w.written : Int),
              { s with
                inodes := upd s.inodes ni w.node
                free_blocks := w.fb
                disk := w.disk
                fdt := upd s.fdt fileID.toNat ⟨f.inode, w.rwptr⟩ })

/-! ### The read path -/

/-- The loop-carried state of `sfs_fread`'s block walk: the descriptor's
r/w pointer, the caller's output buffer, the running `bytes_read`, and the
lazily loaded indirect-pointer buffer. -/
structure RLoop where
  rwptr : Nat
  out : Nat → Nat
  bytesRead : Nat
  ptrBuf : Nat → Nat
  didLoad : Bool

/-- The while loop of `sfs_fread` over the read-only inode `nd` and disk
`dk`.  `fuel ≥ toRead` at every call site.  The loop stops early (returning
the state reached) on a hole: a zero direct pointer, a zero indirect
pointer, or a zero indirect slot. -/
def readLoop (dk : Nat → Nat → Nat) (nd : Inode) (buf : Nat → Nat) (fuel : Nat)
    (r : RLoop) (toRead : Nat) : RLoop :=
  match fuel with
  | 0 => r
  | fuel + 1 =>
    if toRead = 0 then r
    else
      let cb := r.rwptr / BLOCK_SIZE
      if MAX_DATA_BLOCKS_PER_FILE - 1 ≤ cb then r
      else if cb < NUM_DIRECT_POINTERS then
        if 0 < nd.direct cb then
          let bbuf := dk (nd.direct cb)
          let off := r.rwptr % BLOCK_SIZE
          let chunk := min (BLOCK_SIZE - off) toRead
          let r1 : RLoop :=
            { r with
              out := memcpy r.out r.bytesRead bbuf off chunk
              bytesRead := r.bytesRead + chunk
              rwptr := r.rwptr + chunk }
          readLoop dk nd buf fuel r1 (toRead - chunk)
        else r
      else
        let load := r.didLoad = false ∧ 0 < nd.indirect
        let pb := if load then decodePtrs (dk nd.indirect) else r.ptrBuf
        let dl := if load then true else r.didLoad
        let r1 : RLoop := { r with ptrBuf := pb, didLoad := dl }
        let ptr_address := cb - NUM_DIRECT_POINTERS
        if dl = true ∧ 0 < pb ptr_address then
          let bbuf := dk (pb ptr_address)
          let off := r1.rwptr % BLOCK_SIZE
          let chunk := min (BLOCK_SIZE - off) toRead
          let r2 : RLoop :=
            { r1 with
              out := memcpy r1.out r1.bytesRead bbuf off chunk
              bytesRead := r1.bytesRead + chunk
              rwptr := r1.rwptr + chunk }
          readLoop dk nd buf fuel r2 (toRead - chunk)
        else r1

/-- `sfs_fread(int fileID, char* buf, int length)`.  Returns the byte count,
the caller's buffer after the copy, and the state (only the descriptor's
r/w pointer can change).  `none` models the same unchecked accesses as in
`sfs_fwrite`. -/
def sfs_fread (s : FS) (fileID : Int) (buf : Nat → Nat) (length : Int) :
    Option (Int × (Nat → Nat) × FS) :=
  if length ≤ 0 then
    if fileID < 0 ∨ (NUM_INODES : Int) ≤ fileID then none else some (0, buf, s)
  else if fileID < 0 ∨ (NUM_INODES : Int) ≤ fileID then none
  else
    let f := s.fdt fileID.toNat
    if f.inode ≤ 0 then some (0, buf, s)
    else if (NUM_INODES : Int) ≤ f.inode then none
    else
      let ni := f.inode.toNat
      let nd := s.inodes ni
      if nd.size ≤ f.rwptr then some (0, buf, s)
      else
        let toRead := min length.toNat (nd.size - f.rwptr)
        let r0 : RLoop :=
          { rwptr := f.rwptr, out := buf, bytesRead := 0,
            ptrBuf := fun _ => 0, didLoad := false }
        let r := readLoop s.disk nd buf toRead r0 toRead
        some ((r.bytesRead : Int), r.out,
          { s with fdt := upd s.fdt fileID.toNat ⟨f.inode, r.rwptr⟩ })

/-! ### Remove -/

/-- First descriptor slot in `[j, j+n)` referencing `target` (the
close-on-remove scan of `sfs_remove`). -/
def fdtFindByInode (fdt : Nat → FileDescriptor) (target : Int) (j n : Nat) :
    Option Nat :=
  match n with
  | 0 => none
  | n + 1 => if (fdt j).inode = target then some j else fdtFindByInode fdt target (j + 1) n

/-- Phase 1 of `sfs_remove`: scan every directory slot in `[i, i+n)`; at
each name match remember `i+1` (the last match wins), clear the entry, and
close the first descriptor referencing inode `i+1`. -/
def removeScan (s : FS) (file : String) (i n : Nat) (inode : Int) : Int × FS :=
  match n with
  | 0 => (inode, s)
  | n + 1 =>
    if (s.root i).names = file then
      let s1 := { s with root := upd s.root i ⟨0, ""⟩ }
      let s2 :=
        match fdtFindByInode s1.fdt ((i : Int) + 1) 1 (NUM_INODES - 1) with
        | some j => (sfs_fclose s1 (j : Int)).2
        | none => s1
      removeScan s2 file (i + 1) n ((i : Int) + 1)
    else removeScan s file (i + 1) n inode

/-- The direct-pointer cleanup loop of `sfs_remove`: for each `i ∈ [0, 12)`,
if `direct[i]` is nonzero clear its bitmap byte (out of bounds — `none` —
when the pointer lies outside the data region) and zero the block on disk;
in all cases zero the pointer. -/
def removeDirectLoop (nd : Inode) (fb : Nat → Nat) (dk : Nat → Nat → Nat)
    (i m : Nat) : Option (Inode × (Nat → Nat) × (Nat → Nat → Nat)) :=
  match m with
  | 0 => some (nd, fb, dk)
  | m + 1 =>
    let a := nd.direct i
    let nd1 : Inode := { nd with direct := upd nd.direct i 0 }
    if 0 < a then
      if DATA_BLOCKS_OFFSET ≤ a ∧ a < DATA_BLOCKS_OFFSET + MAX_DATA_BLOCKS_SCALED_DOWN then
        removeDirectLoop nd1 (upd fb (a - DATA_BLOCKS_OFFSET) 0)
          (upd dk a (fun _ => 0)) (i + 1) m
      else none
    else removeDirectLoop nd1 fb dk (i + 1) m

/-- The indirect-slot cleanup loop of `sfs_remove`: for each slot
`t ∈ [0, NUM_POINTERS_IN_INDIRECT - 1)` of the loaded index block, if the
slot is nonzero clear its bitmap byte and zero the block on disk.  The
index block's own bitmap byte is NOT touched here (nor anywhere else in the
source). -/
def removeIndirectLoop (pb : Nat → Nat) (fb : Nat → Nat) (dk : Nat → Nat → Nat)
    (t m : Nat) : Option ((Nat → Nat) × (Nat → Nat → Nat)) :=
  match m with
  | 0 => some (fb, dk)
  | m + 1 =>
    let a := pb t
    if 0 < a then
      if DATA_BLOCKS_OFFSET ≤ a ∧ a < DATA_BLOCKS_OFFSET + MAX_DATA_BLOCKS_SCALED_DOWN then
        removeIndirectLoop pb (upd fb (a - DATA_BLOCKS_OFFSET) 0)
          (upd dk a (fun _ => 0)) (t + 1) m
      else none
    else removeIndirectLoop pb fb dk (t + 1) m

/-- `sfs_remove(char* file)`. -/
def sfs_remove (s : FS) (file : String) : Option (Int × FS) :=
  let p1 := removeScan s file 0 NUM_FILE_INODES (-1)
  let inode := p1.1
  let s1 := p1.2
  if 0 < inode ∧ (s1.inodes inode.toNat).link_cnt = 1 then
    let ni := inode.toNat
    let nd := s1.inodes ni
    match removeDirectLoop nd s1.free_blocks s1.disk 0 NUM_DIRECT_POINTERS with
    | none => none
    | some (nd1, fb1, dk1) =>
      match
        if 0 < nd1.indirect then
          let pb := decodePtrs (dk1 nd1.indirect)
          match removeIndirectLoop pb fb1 dk1 0 (NUM_POINTERS_IN_INDIRECT - 1) with
          | none => none
          | some (fb2, dk2) =>
            some ({ nd1 with indirect := 0 }, fb2, upd dk2 nd1.indirect (fun _ => 0))
        else some (nd1, fb1, dk1)
      with
      | none => none
      | some (nd2, fb3, dk3) =>
        let nd3 : Inode := { nd2 with mode := 0, size := 0, link_cnt := 0 }
        let inodes1 := upd s1.inodes ni nd3
        some (inode,
          { s1 with
            inodes := inodes1
            free_blocks := fb3
            disk := dk3
            num_files := s1.num_files - 1
            diskInodes := inodes1
            diskRoot := s1.root
            diskBitmap := fb3 })
  else some (inode, s1)

/-! ### Derived observables used in the claim statements -/

/-- The absolute disk block backing file-relative block `b` of inode `nd`:
a direct pointer for `b < 12`, otherwise the `b - 12`-th slot of the
indirect index block as stored on disk (`0`, i.e. a hole, when the file has
no indirect block). -/
def fileBlockAddr (nd : Inode) (dk : Nat → Nat → Nat) (b : Nat) : Nat :=
  if b < NUM_DIRECT_POINTERS then nd.direct b
  else if nd.indirect = 0 then 0
  else decodePtrs (dk nd.indirect) (b - NUM_DIRECT_POINTERS)

/-- Byte `k` of the file described by inode `nd` on disk `dk`. -/
def fileByte (nd : Inode) (dk : Nat → Nat → Nat) (k : Nat) : Nat :=
  dk (fileBlockAddr nd dk (k / BLOCK_SIZE)) (k % BLOCK_SIZE)

/-- Number of indices `k < n` with `f k ≠ 0`. -/
def countNZ (f : Nat → Nat) (n : Nat) : Nat :=
  match n with
  | 0 => 0
  | n + 1 => countNZ f n + (if f n ≠ 0 then 1 else 0)

/-- Number of data blocks referenced by an inode: nonzero direct pointers
plus, when an indirect index block is present, its nonzero slots. -/
def inodeDataBlocks (nd : Inode) (dk : Nat → Nat → Nat) : Nat :=
  countNZ nd.direct NUM_DIRECT_POINTERS +
    if nd.indirect ≠ 0 then
      countNZ (decodePtrs (dk nd.indirect)) (NUM_POINTERS_IN_INDIRECT - 1)
    else 0

/-- Number of indices `k < n` with `f k = 1`. -/
def countOnes (f : Nat → Nat) (n : Nat) : Nat :=
  match n with
  | 0 => 0
  | n + 1 => countOnes f n + (if f n = 1 then 1 else 0)

/-- The count of 1-valued bytes in the free-space bitmap. -/
def bitmapCount (s : FS) : Nat :=
  countOnes s.free_blocks MAX_DATA_BLOCKS_SCALED_DOWN

/-- Ceiling division by the block size: the number of blocks needed to hold
`n` bytes. -/
def blocksFor (n : Nat) : Nat := (n + (BLOCK_SIZE - 1)) / BLOCK_SIZE

/-! ### Predicates and concrete states used by the claim theorems -/

/-- The success condition of `sfs_fseek` as implemented: descriptor index in
range, descriptor bound to a file inode, `0 ≤ loc ≤ size`, and
`loc < MAX_DATA_BLOCKS_PER_FILE * BLOCK_SIZE` (269 blocks — the source's
bound, one block above the spec's `MAX_FILE_BYTES`). -/
def seekOk (s : FS) (fileID loc : Int) : Prop :=
  0 < fileID ∧ fileID < (NUM_INODES : Int) ∧
    1 ≤ (s.fdt fileID.toNat).inode ∧ (s.fdt fileID.toNat).inode < (NUM_INODES : Int) ∧
    0 ≤ loc ∧ loc ≤ ((s.inodes (s.fdt fileID.toNat).inode.toNat).size : Int) ∧
    loc < ((MAX_DATA_BLOCKS_PER_FILE * BLOCK_SIZE : Nat) : Int)

/-- The state right after `mksfs(1)` at program start: a freshly mounted,
freshly formatted file system. -/
def freshFS : FS := mksfs zeroFS true

/-- A file whose body is a contiguous allocated prefix: every file-relative
block below `⌈size / BLOCK_SIZE⌉` is mapped to a nonzero disk block. -/
def noHoles (nd : Inode) (dk : Nat → Nat → Nat) : Prop :=
  ∀ b, b < blocksFor nd.size → fileBlockAddr nd dk b ≠ 0

/-- A state with one open descriptor on a file of the spec's maximal size
`MAX_FILE_BYTES` (reachable by writing `MAX_FILE_BYTES` bytes to a fresh
file), used to separate the seek bound of the source from the spec's. -/
def c5state : FS :=
  { zeroFS with
    fdt := upd zeroFS.fdt 1 ⟨1, 0⟩
    inodes := upd zeroFS.inodes 1
      { mode := 1, link_cnt := 1, size := MAX_FILE_BYTES,
        direct := fun _ => 0, indirect := 0 } }

/-- A 13-block file "g" (12 direct blocks 18..29, indirect index block 30
with its single slot pointing at block 31), exactly the layout `sfs_fwrite`
builds for a fresh 13312-byte file; 14 bitmap bytes are set. -/
def c2state : FS :=
  { zeroFS with
    num_files := 1
    fdt := fun i => if i = 0 then ⟨0, 0⟩ else ⟨-1, 0⟩
    inodes := upd zeroFS.inodes 1
      { mode := 1, link_cnt := 1, size := 13 * BLOCK_SIZE,
        direct := fun b => if b < 12 then DATA_BLOCKS_OFFSET + b else 0,
        indirect := DATA_BLOCKS_OFFSET + 12 }
    root := upd zeroFS.root 0 ⟨1, "g"⟩
    free_blocks := fun i => if i < 14 then 1 else 0
    disk := upd zeroFS.disk (DATA_BLOCKS_OFFSET + 12)
      (encodePtrs (fun t => if t = 0 then DATA_BLOCKS_OFFSET + 13 else 0)) }

/-- State after `mksfs(1); fd = sfs_fopen("a")` from program start. -/
def traceA2 : FS := (sfs_fopen freshFS "a").2

/-- State after additionally writing 5 bytes (value 104) through fd 1. -/
def c3s3 : FS := ((sfs_fwrite traceA2 1 (fun _ => 104) 5).getD (0, traceA2)).2

/-- State after a second, mid-session `mksfs(1)`. -/
def c3s4 : FS := mksfs c3s3 true

/-- State after then creating "b" — the slip: inode 1 is re-used with its
stale direct pointer intact. -/
def c3s5 : FS := (sfs_fopen c3s4 "b").2

/-- State after writing "xxx" (byte 120, length 3) through fd 1. -/
def c8s3 : FS := ((sfs_fwrite traceA2 1 (fun _ => 120) 3).getD (0, traceA2)).2

/-- State after closing fd 1. -/
def c8s4 : FS := (sfs_fclose c8s3 1).2

/-- State after reopening "a". -/
def c8s5 : FS := (sfs_fopen c8s4 "a").2

/-- State after writing "y" (byte 121, length 1) through the reopened fd. -/
def c8s6 : FS := ((sfs_fwrite c8s5 1 (fun _ => 121) 1).getD (0, c8s5)).2

/-- The state `c8s3` with the descriptor's r/w pointer moved back to 0
(via seek), ready for a read of the 3 bytes of "a". -/
def c6state : FS := ((sfs_fseek c8s3 1 0).getD (0, c8s3)).2

/-- The state after `sfs_remove c2state "g"` (the `getD` default is never
used: the theorem about it proves the call returns `some`). -/
def c2after : FS := ((sfs_remove c2state "g").getD (0, c2state)).2

/-- State after `mksfs(1); fd = sfs_fopen("f")` from program start (the
round-trip trace of the spec). -/
def c1s1 : FS := (sfs_fopen freshFS "f").2

/-! ### The invariant of a fresh sequential write (used for the round trip) -/

/-- Disk block used for file-relative block `b` when writing a fresh file
sequentially from offset 0: the allocator hands out bitmap slots first-fit,
so the direct blocks get 18..29, the indirect index block gets 30 and the
indirect data blocks get 31, 32, …. -/
def freshAddr (b : Nat) : Nat :=
  if b < NUM_DIRECT_POINTERS then DATA_BLOCKS_OFFSET + b
  else DATA_BLOCKS_OFFSET + 13 + (b - NUM_DIRECT_POINTERS)

/-- Bitmap slots consumed after `Q` data blocks of a fresh sequential write:
one per data block, plus one for the indirect index block once `Q > 12`. -/
def freshAlloc (Q : Nat) : Nat := if Q ≤ NUM_DIRECT_POINTERS then Q else Q + 1

/-- Invariant of `sfs_fwrite`'s loop when writing `L` bytes of `B` to a
fresh file: `m` bytes consumed, `Q` file-relative blocks touched so far. -/
def WShape (B : Nat → Nat) (L m Q : Nat) (w : WLoop) : Prop :=
  w.rwptr = m ∧ w.written = m ∧ w.offs = (m : Int) ∧ w.node.size = 0 ∧
  (∀ b, b < NUM_DIRECT_POINTERS →
    w.node.direct b = if b < min Q NUM_DIRECT_POINTERS then DATA_BLOCKS_OFFSET + b else 0) ∧
  w.node.indirect =
    (if Q ≤ NUM_DIRECT_POINTERS then 0 else DATA_BLOCKS_OFFSET + NUM_DIRECT_POINTERS) ∧
  (w.didLoad = true ↔ NUM_DIRECT_POINTERS < Q) ∧
  (∀ t, w.ptrBuf t =
    if t + NUM_DIRECT_POINTERS < Q then DATA_BLOCKS_OFFSET + 13 + t else 0) ∧
  (∀ i, w.fb i = if i < freshAlloc Q then 1 else 0) ∧
  (∀ b, b < Q → ∀ o, w.disk (freshAddr b) o =
    if o < BLOCK_SIZE ∧ BLOCK_SIZE * b + o < L then B (BLOCK_SIZE * b + o) else 0) ∧
  (∀ a, (∀ b, b < Q → a ≠ freshAddr b) → ∀ o, w.disk a o = 0)

/-! ### Basic lemmas about the memory combinators -/

theorem upd_same {α : Type} (f : Nat → α) (i : Nat) (v : α) : upd f i v i = v := by
  simp [upd]

theorem upd_other {α : Type} (f : Nat → α) (i j : Nat) (v : α) (h : j ≠ i) :
    upd f i v j = f j := by
  simp [upd, h]

theorem memcpy_in (dst : Nat → Nat) (doff : Nat) (src : Nat → Nat) (soff n j : Nat)
    (h1 : doff ≤ j) (h2 : j < doff + n) :
    memcpy dst doff src soff n j = src (soff + (j - doff)) := by
  simp [memcpy, h1, h2]

theorem memcpy_out (dst : Nat → Nat) (doff : Nat) (src : Nat → Nat) (soff n j : Nat)
    (h : j < doff ∨ doff + n ≤ j) :
    memcpy dst doff src soff n j = dst j := by
  rcases h with h | h <;> simp [memcpy] <;> omega

theorem decodePtrs_encodePtrs (p : Nat → Nat) (i : Nat) (h : p i < 2 ^ 32) :
    decodePtrs (encodePtrs p) i = p i := by
  have e0 : (4 * i) / 4 = i := by omega
  have e1 : (4 * i + 1) / 4 = i := by omega
  have e2 : (4 * i + 2) / 4 = i := by omega
  have e3 : (4 * i + 3) / 4 = i := by omega
  have m0 : (4 * i) % 4 = 0 := by omega
  have m1 : (4 * i + 1) % 4 = 1 := by omega
  have m2 : (4 * i + 2) % 4 = 2 := by omega
  have m3 : (4 * i + 3) % 4 = 3 := by omega
  simp only [decodePtrs, encodePtrs, e0, e1, e2, e3, m0, m1, m2, m3]
  norm_num
  omega

theorem decodePtrs_zero (i : Nat) : decodePtrs (fun _ => 0) i = 0 := by
  simp [decodePtrs]

/-! ### First-fit lemmas for the bitmap scan -/

theorem bitmapScan_found (fb : Nat → Nat) (k : Nat) :
    ∀ i n, k < n → (∀ j, j < k → fb (i + j) ≠ 0) → fb (i + k) = 0 →
      bitmapScan fb i n = ((i + k : Nat) : Int) := by
  induction k with
  | zero =>
    intro i n hn _ hk
    match n, hn with
    | n + 1, _ =>
      have hk' : fb i = 0 := by simpa using hk
      simp [bitmapScan, hk']
  | succ k ih =>
    intro i n hn hj hk
    match n, hn with
    | n + 1, hn =>
      simp only [bitmapScan]
      have h0 : fb i ≠ 0 := by have := hj 0 (by omega); simpa using this
      rw [if_neg h0]
      have := ih (i + 1) n (by omega) (fun j hjk => by
        have := hj (j + 1) (by omega)
        simpa [Nat.add_assoc, Nat.add_comm 1 j] using this)
        (by simpa [Nat.add_assoc, Nat.add_comm 1 k] using hk)
      rw [this]
      congr 1
      omega

theorem bitmapScan_none (fb : Nat → Nat) :
    ∀ n i, (∀ j, j < n → fb (i + j) ≠ 0) → bitmapScan fb i n = -1 := by
  intro n
  induction n with
  | zero => intro i _; rfl
  | succ n ih =>
    intro i hj
    simp only [bitmapScan]
    have h0 : fb i ≠ 0 := by have := hj 0 (by omega); simpa using this
    rw [if_neg h0]
    exact ih (i + 1) (fun j hjn => by
      have := hj (j + 1) (by omega)
      simpa [Nat.add_assoc, Nat.add_comm 1 j] using this)

/-! ### Lemmas about the directory and descriptor scans -/

theorem dirFindFirst_found (root : Nat → DirEntry) (name : String) (k : Nat) :
    ∀ i n, k < n → (∀ j, j < k → name ≠ (root (i + j)).names) →
      name = (root (i + k)).names → dirFindFirst root name i n = some (i + k) := by
  induction k with
  | zero =>
    intro i n hn _ hk
    match n, hn with
    | n + 1, _ =>
      have hk' : name = (root i).names := by simpa using hk
      simp [dirFindFirst, hk']
  | succ k ih =>
    intro i n hn hj hk
    match n, hn with
    | n + 1, hn =>
      simp only [dirFindFirst]
      have h0 : ¬ name = (root i).names := by have := hj 0 (by omega); simpa using this
      rw [if_neg h0]
      have := ih (i + 1) n (by omega) (fun j hjk => by
        have := hj (j + 1) (by omega)
        simpa [Nat.add_assoc, Nat.add_comm 1 j] using this)
        (by simpa [Nat.add_assoc, Nat.add_comm 1 k] using hk)
      rw [this]
      congr 1
      omega

theorem dirFindFirst_none (root : Nat → DirEntry) (name : String) :
    ∀ n i, (∀ j, j < n → name ≠ (root (i + j)).names) →
      dirFindFirst root name i n = none := by
  intro n
  induction n with
  | zero => intro i _; rfl
  | succ n ih =>
    intro i hj
    simp only [dirFindFirst]
    have h0 : ¬ name = (root i).names := by have := hj 0 (by omega); simpa using this
    rw [if_neg h0]
    exact ih (i + 1) (fun j hjn => by
      have := hj (j + 1) (by omega)
      simpa [Nat.add_assoc, Nat.add_comm 1 j] using this)

theorem fopenFdScan_none_iff (fdt : Nat → FileDescriptor) (target : Int) :
    ∀ n j ff, fopenFdScan fdt target j n ff = none ↔
      ∃ k, k < n ∧ (fdt (j + k)).inode = target := by
  intro n
  induction n with
  | zero =>
    intro j ff
    simp [fopenFdScan]
  | succ n ih =>
    intro j ff
    simp only [fopenFdScan]
    by_cases h0 : (fdt j).inode = target
    · rw [if_pos h0]
      constructor
      · intro _; exact ⟨0, by omega, by simpa using h0⟩
      · intro _; rfl
    · rw [if_neg h0]
      rw [ih]
      constructor
      · rintro ⟨k, hk, hke⟩
        exact ⟨k + 1, by omega, by simpa [Nat.add_assoc, Nat.add_comm 1 k] using hke⟩
      · rintro ⟨k, hk, hke⟩
        match k with
        | 0 => exact absurd (by simpa using hke) h0
        | k + 1 =>
          exact ⟨k, by omega, by simpa [Nat.add_assoc, Nat.add_comm 1 k] using hke⟩

theorem fopenFdScan_keep (fdt : Nat → FileDescriptor) (target : Int) :
    ∀ n j ff, (∀ k, k < n → (fdt (j + k)).inode ≠ target) → ff ≠ -1 →
      fopenFdScan fdt target j n ff = some ff := by
  intro n
  induction n with
  | zero => intro j ff _ _; rfl
  | succ n ih =>
    intro j ff hnd hff
    simp only [fopenFdScan]
    have h0 : (fdt j).inode ≠ target := by have := hnd 0 (by omega); simpa using this
    rw [if_neg h0, if_neg (by simp [hff])]
    exact ih (j + 1) ff (fun k hk => by
      have := hnd (k + 1) (by omega)
      simpa [Nat.add_assoc, Nat.add_comm 1 k] using this) hff

theorem fopenFdScan_free (fdt : Nat → FileDescriptor) (target : Int) :
    ∀ n j, (∀ k, k < n → (fdt (j + k)).inode ≠ target) →
      fopenFdScan fdt target j n (-1) =
        some (match fdtFindFree fdt j n with
              | some k => (k : Int)
              | none => -1) := by
  intro n
  induction n with
  | zero => intro j _; rfl
  | succ n ih =>
    intro j hnd
    have h0 : (fdt j).inode ≠ target := by have := hnd 0 (by omega); simpa using this
    have hrest : ∀ k, k < n → (fdt (j + 1 + k)).inode ≠ target := fun k hk => by
      have := hnd (k + 1) (by omega)
      simpa [Nat.add_assoc, Nat.add_comm 1 k] using this
    simp only [fopenFdScan, fdtFindFree]
    rw [if_neg h0]
    by_cases hfree : (fdt j).inode = -1
    · rw [if_pos (by simp [hfree]), if_pos hfree]
      exact fopenFdScan_keep fdt target n (j + 1) ((j : Int)) hrest (by omega)
    · rw [if_neg (by simp [hfree]), if_neg hfree]
      exact ih (j + 1) hrest

theorem fdtFindFree_none (fdt : Nat → FileDescriptor) :
    ∀ n j, (∀ k, k < n → (fdt (j + k)).inode ≠ -1) → fdtFindFree fdt j n = none := by
  intro n
  induction n with
  | zero => intro j _; rfl
  | succ n ih =>
    intro j hj
    simp only [fdtFindFree]
    have h0 : (fdt j).inode ≠ -1 := by have := hj 0 (by omega); simpa using this
    rw [if_neg h0]
    exact ih (j + 1) (fun k hk => by
      have := hj (k + 1) (by omega)
      simpa [Nat.add_assoc, Nat.add_comm 1 k] using this)

theorem fdtFindFree_found (fdt : Nat → FileDescriptor) (k : Nat) :
    ∀ i n, k < n → (∀ j, j < k → (fdt (i + j)).inode ≠ -1) →
      (fdt (i + k)).inode = -1 → fdtFindFree fdt i n = some (i + k) := by
  induction k with
  | zero =>
    intro i n hn _ hk
    match n, hn with
    | n + 1, _ =>
      have hk' : (fdt i).inode = -1 := by simpa using hk
      simp [fdtFindFree, hk']
  | succ k ih =>
    intro i n hn hj hk
    match n, hn with
    | n + 1, hn =>
      simp only [fdtFindFree]
      have h0 : (fdt i).inode ≠ -1 := by have := hj 0 (by omega); simpa using this
      rw [if_neg h0]
      have := ih (i + 1) n (by omega) (fun j hjk => by
        have := hj (j + 1) (by omega)
        simpa [Nat.add_assoc, Nat.add_comm 1 j] using this)
        (by simpa [Nat.add_assoc, Nat.add_comm 1 k] using hk)
      rw [this]
      congr 1
      omega

/-! ### Lemmas about the size-query scan -/

theorem getfilesizeAux_nomatch (root : Nat → DirEntry) (inodes : Nat → Inode)
    (path : String) :
    ∀ n i acc, (∀ j, j < n → path ≠ (root (i + j)).names) →
      getfilesizeAux root inodes path i n acc = acc := by
  intro n
  induction n with
  | zero => intro i acc _; rfl
  | succ n ih =>
    intro i acc hj
    simp only [getfilesizeAux]
    have h0 : ¬ path = (root i).names := by have := hj 0 (by omega); simpa using this
    rw [if_neg h0]
    exact ih (i + 1) acc (fun j hjn => by
      have := hj (j + 1) (by omega)
      simpa [Nat.add_assoc, Nat.add_comm 1 j] using this)

theorem getfilesizeAux_unique (root : Nat → DirEntry) (inodes : Nat → Inode)
    (path : String) (i0 : Nat) :
    ∀ n i acc, i ≤ i0 → i0 < i + n → path = (root i0).names →
      (∀ j, i ≤ j → j < i + n → path = (root j).names → j = i0) →
      getfilesizeAux root inodes path i n acc = ((inodes (i0 + 1)).size : Int) := by
  intro n
  induction n with
  | zero => intro i acc h1 h2 _ _; omega
  | succ n ih =>
    intro i acc h1 h2 hmatch huniq
    simp only [getfilesizeAux]
    by_cases hi : i = i0
    · subst hi
      rw [if_pos hmatch]
      exact getfilesizeAux_nomatch root inodes path n (i + 1) _ (fun j hj hcon => by
        have := huniq (i + 1 + j) (by omega) (by omega) hcon
        omega)
    · have hni : ¬ path = (root i).names := by
        intro hcon
        exact hi (huniq i (by omega) (by omega) hcon)
      rw [if_neg hni]
      exact ih (i + 1) acc (by omega) (by omega) hmatch (fun j hj1 hj2 hj3 =>
        huniq j (by omega) (by omega) hj3)

theorem getfilesizeAux_hit (root : Nat → DirEntry) (inodes : Nat → Inode)
    (path : String) :
    ∀ n i acc, (∃ j, j < n ∧ path = (root (i + j)).names) →
      ∃ j, j < n ∧ path = (root (i + j)).names ∧
        getfilesizeAux root inodes path i n acc = ((inodes (i + j + 1)).size : Int) := by
  intro n
  induction n with
  | zero => rintro i acc ⟨j, hj, _⟩; omega
  | succ n ih =>
    intro i acc hex
    simp only [getfilesizeAux]
    by_cases htail : ∃ j, j < n ∧ path = (root (i + 1 + j)).names
    · obtain ⟨j, hj, hje, hres⟩ := ih (i + 1) _ htail
      exact ⟨j + 1, by omega,
        by simpa [Nat.add_assoc, Nat.add_comm 1 j] using hje,
        by rw [hres, show i + 1 + j + 1 = i + (j + 1) + 1 from by omega]⟩
    · obtain ⟨j0, hj0, hj0e⟩ := hex
      have hj00 : j0 = 0 := by
        by_contra hne
        exact htail ⟨j0 - 1, by omega, by
          have : i + 1 + (j0 - 1) = i + j0 := by omega
          rw [this]; exact hj0e⟩
      subst hj00
      have h0 : path = (root i).names := by simpa using hj0e
      rw [if_pos h0]
      refine ⟨0, by omega, by simpa using h0, ?_⟩
      rw [getfilesizeAux_nomatch root inodes path n (i + 1) _ (fun j hj hcon =>
        htail ⟨j, hj, hcon⟩)]

/-! ### Lemmas about the create branch of `sfs_fopen` -/

theorem fopenCreate_noInode (s : FS) (name : String) :
    ∀ n i, (∀ k, k < n → (s.inodes (i + k)).link_cnt ≠ 0) →
      fopenCreate s name i n = (-1, s) := by
  intro n
  induction n with
  | zero => intro i _; rfl
  | succ n ih =>
    intro i hk
    simp only [fopenCreate]
    have h0 : (s.inodes i).link_cnt ≠ 0 := by have := hk 0 (by omega); simpa using this
    rw [if_neg h0]
    exact ih (i + 1) (fun k hkn => by
      have := hk (k + 1) (by omega)
      simpa [Nat.add_assoc, Nat.add_comm 1 k] using this)

theorem fopenCreate_noFd (s : FS) (name : String)
    (hfd : fdtFindFree s.fdt 1 (NUM_INODES - 1) = none) :
    ∀ n i, fopenCreate s name i n = (-1, s) := by
  intro n
  induction n with
  | zero => intro i; rfl
  | succ n ih =>
    intro i
    simp only [fopenCreate]
    by_cases h0 : (s.inodes i).link_cnt = 0
    · rw [if_pos h0, hfd]
      exact ih (i + 1)
    · rw [if_neg h0]
      exact ih (i + 1)

/-! ### Lemmas about `sfs_fclose` and phase 1 of `sfs_remove` -/

theorem sfs_fclose_frame (s : FS) (j : Int) :
    ((sfs_fclose s j).2).root = s.root ∧ ((sfs_fclose s j).2).inodes = s.inodes ∧
      ((sfs_fclose s j).2).free_blocks = s.free_blocks ∧
      ((sfs_fclose s j).2).disk = s.disk := by
  unfold sfs_fclose
  split
  · split
    · exact ⟨rfl, rfl, rfl, rfl⟩
    · exact ⟨rfl, rfl, rfl, rfl⟩
  · exact ⟨rfl, rfl, rfl, rfl⟩

theorem removeScan_inodes (file : String) :
    ∀ n i s acc, ((removeScan s file i n acc).2).inodes = s.inodes := by
  intro n
  induction n with
  | zero => intro i s acc; rfl
  | succ n ih =>
    intro i s acc
    simp only [removeScan]
    by_cases h0 : (s.root i).names = file
    · rw [if_pos h0]
      split
      · rw [ih]
        exact (sfs_fclose_frame _ _).2.1
      · rw [ih]
    · rw [if_neg h0]
      exact ih (i + 1) s acc

theorem removeScan_ret (file : String) :
    ∀ n i s acc,
      ((removeScan s file i n acc).1 = acc ∧
        ∀ k, k < n → (s.root (i + k)).names ≠ file) ∨
      (∃ k, k < n ∧ (s.root (i + k)).names = file ∧
        (removeScan s file i n acc).1 = ((i + k : Nat) : Int) + 1) := by
  intro n
  induction n with
  | zero => intro i s acc; exact Or.inl ⟨rfl, fun k hk => by omega⟩
  | succ n ih =>
    intro i s acc
    simp only [removeScan]
    by_cases h0 : (s.root i).names = file
    · rw [if_pos h0]
      right
      set s1 : FS := { s with root := upd s.root i ⟨0, ""⟩ } with hs1
      set s2 : FS :=
        (match fdtFindByInode s1.fdt ((i : Int) + 1) 1 (NUM_INODES - 1) with
          | some j => (sfs_fclose s1 (j : Int)).2
          | none => s1) with hs2
      have hroot : ∀ k, s2.root (i + 1 + k) = s.root (i + 1 + k) := by
        intro k
        have h2 : s2.root = s1.root := by
          rw [hs2]
          split
          · exact (sfs_fclose_frame _ _).1
          · rfl
        rw [h2, hs1]
        exact upd_other _ _ _ _ (by omega)
      rcases ih (i + 1) s2 ((i : Int) + 1) with ⟨hret, _⟩ | ⟨k, hk, hke, hret⟩
      · exact ⟨0, by omega, by simpa using h0, by rw [hret]; push_cast; ring⟩
      · refine ⟨k + 1, by omega, ?_, ?_⟩
        · have := hke
          rw [hroot k] at this
          simpa [show i + (k + 1) = i + 1 + k from by omega] using this
        · rw [hret]
          push_cast
          ring
    · rw [if_neg h0]
      rcases ih (i + 1) s acc with ⟨hret, hnone⟩ | ⟨k, hk, hke, hret⟩
      · left
        refine ⟨hret, fun k hk => ?_⟩
        match k with
        | 0 => simpa using h0
        | k + 1 =>
          have := hnone k (by omega)
          simpa [show i + 1 + k = i + (k + 1) from by omega] using this
      · right
        refine ⟨k + 1, by omega, ?_, ?_⟩
        · have := hke
          simpa [show i + 1 + k = i + (k + 1) from by omega] using this
        · rw [hret]
          push_cast
          ring

/-! ### Numeric values of the header constants -/

theorem NUM_INODES_val : NUM_INODES = 128 := rfl

theorem BLOCK_SIZE_val : BLOCK_SIZE = 1024 := rfl

theorem NUM_FILE_INODES_val : NUM_FILE_INODES = 127 := rfl

theorem NUM_DIRECT_POINTERS_val : NUM_DIRECT_POINTERS = 12 := rfl

theorem NUM_POINTERS_IN_INDIRECT_val : NUM_POINTERS_IN_INDIRECT = 257 := rfl

theorem MAX_DATA_BLOCKS_PER_FILE_val : MAX_DATA_BLOCKS_PER_FILE = 269 := rfl

theorem MAX_DATA_BLOCKS_SCALED_DOWN_val : MAX_DATA_BLOCKS_SCALED_DOWN = 2135 := rfl

theorem DATA_BLOCKS_OFFSET_val : DATA_BLOCKS_OFFSET = 18 := rfl

theorem MAX_FILE_BYTES_val : MAX_FILE_BYTES = 274432 := rfl

theorem seek_bound_val : MAX_DATA_BLOCKS_PER_FILE * BLOCK_SIZE = 275456 := rfl

/-! ### Claim C5 -/

/-- Claim C5, counterexample to the claim as stated: on a file of the spec's
maximal size 268 × 1024 (reachable by writing `MAX_FILE_BYTES` bytes into a
fresh file), `seek(fd, 268 × 1024)` returns 0 and sets the r/w pointer,
although `loc < MAX_FILE_BYTES` fails, so the claimed iff (which would
require −1 here) is false: the source's bound is
`MAX_DATA_BLOCKS_PER_FILE * BLOCK_SIZE` = 269 × 1024, not 268 × 1024. -/
theorem C5_counterexample :
    sfs_fseek c5state 1 ((MAX_FILE_BYTES : Nat) : Int) =
      some (0, { c5state with fdt := upd c5state.fdt 1 ⟨1, MAX_FILE_BYTES⟩ }) ∧
    ((c5state.inodes 1).size : Int) = ((MAX_FILE_BYTES : Nat) : Int) ∧
    ¬ (((MAX_FILE_BYTES : Nat) : Int) < ((MAX_FILE_BYTES : Nat) : Int)) := by
  refine ⟨rfl, rfl, by omega⟩

/-- Claim C5 (amended): `seek(fd, loc)` sets the descriptor's r/w pointer to
`loc` and returns 0 iff `0 < fd < NUM_INODES`, the descriptor is bound to a
file inode, `0 ≤ loc ≤ inode.size`, and
`loc < MAX_DATA_BLOCKS_PER_FILE * BLOCK_SIZE` (= 269 × 1024 — the source's
bound, not the spec's 268 × 1024); in every other case it returns −1 and
leaves the state unchanged.  Stated for states whose descriptor table holds
only inode numbers in `[-1, NUM_INODES)` (all reachable states do). -/
theorem C5_seek_amended (s : FS) (fileID loc : Int)
    (wf : ∀ j, j < NUM_INODES →
      -1 ≤ (s.fdt j).inode ∧ (s.fdt j).inode < (NUM_INODES : Int)) :
    (seekOk s fileID loc →
      sfs_fseek s fileID loc = some (0,
        { s with fdt := upd s.fdt fileID.toNat ⟨(s.fdt fileID.toNat).inode, loc.toNat⟩ })) ∧
    (¬ seekOk s fileID loc → sfs_fseek s fileID loc = some (-1, s)) := by
  constructor
  · rintro ⟨h1, h2, h3, h4, h5, h6, h7⟩
    unfold sfs_fseek
    rw [if_pos ⟨h1, h2⟩, if_neg (by omega), if_neg (by omega), if_neg (by omega)]
  · intro hnot
    unfold sfs_fseek
    by_cases hr : 0 < fileID ∧ fileID < (NUM_INODES : Int)
    · rw [if_pos hr]
      by_cases he : (s.fdt fileID.toNat).inode = -1 ∨ (s.fdt fileID.toNat).inode = 0 ∨
          loc < 0
      · rw [if_pos he]
      · rw [if_neg he]
        have hwf := wf fileID.toNat (by omega)
        rw [if_neg (by omega)]
        by_cases hs : ((s.inodes (s.fdt fileID.toNat).inode.toNat).size : Int) < loc ∨
            ((MAX_DATA_BLOCKS_PER_FILE * BLOCK_SIZE : Nat) : Int) ≤ loc
        · rw [if_pos hs]
        · exfalso
          exact hnot ⟨hr.1, hr.2, by omega, by omega, by omega, by omega, by omega⟩
    · rw [if_neg hr]

/-- Claim C5, witness: the amended theorem applied at a concrete state and
input (descriptor 1 unbound in the start state, so seek fails with −1). -/
theorem C5_witness : sfs_fseek zeroFS 1 0 = some (-1, zeroFS) := by
  have wf : ∀ j, j < NUM_INODES →
      -1 ≤ (zeroFS.fdt j).inode ∧ (zeroFS.fdt j).inode < (NUM_INODES : Int) := by
    intro j hj
    exact ⟨by norm_num [zeroFS], by norm_num [zeroFS, NUM_INODES]⟩
  refine (C5_seek_amended zeroFS 1 0 wf).2 ?_
  rintro ⟨-, -, h3, -⟩
  norm_num [zeroFS] at h3

/-! ### Claim C9 -/

/-- Claim C9, counterexample to the claim as stated: for `fd = -1` (and for
`fd = NUM_INODES`) with a positive length, the very first statement
`file_descriptor_t* f = &fdt[fileID]` followed by the `f->inode` test reads
`fdt` out of bounds — modelled by `none` — so write/read do NOT return 0
with an in-bounds descriptor-table access for every invalid fd. -/
theorem C9_counterexample :
    sfs_fwrite zeroFS (-1) (fun _ => 0) 1 = none ∧
    sfs_fread zeroFS ((NUM_INODES : Nat) : Int) (fun _ => 0) 1 = none := by
  exact ⟨rfl, rfl⟩

/-- Claim C9 (amended): for every fd in `[0, NUM_INODES)` whose descriptor
is not bound to a file inode (`inode ≤ 0`, which covers fd 0 and every
closed slot of a reachable state), and for every fd with `length ≤ 0`,
`sfs_fwrite` and `sfs_fread` return 0 and leave the state (and the caller's
buffer) untouched; but for fd outside `[0, NUM_INODES)` with positive
length the unchecked access `fdt[fileID]` is out of bounds (modelled
`none`), so no in-bounds guarantee holds there. -/
theorem C9_invalid_handles (s : FS) (fid : Int) (buf : Nat → Nat) (len : Int) :
    (0 ≤ fid → fid < (NUM_INODES : Int) → (s.fdt fid.toNat).inode ≤ 0 →
      sfs_fwrite s fid buf len = some (0, s) ∧
      sfs_fread s fid buf len = some (0, buf, s)) ∧
    (len ≤ 0 → 0 ≤ fid → fid < (NUM_INODES : Int) →
      sfs_fwrite s fid buf len = some (0, s) ∧
      sfs_fread s fid buf len = some (0, buf, s)) ∧
    ((fid < 0 ∨ (NUM_INODES : Int) ≤ fid) → 0 < len →
      sfs_fwrite s fid buf len = none ∧ sfs_fread s fid buf len = none) := by
  refine ⟨?_, ?_, ?_⟩
  · intro h1 h2 h3
    constructor
    · unfold sfs_fwrite
      by_cases hl : len ≤ 0
      · rw [if_pos hl, if_neg (by omega)]
      · rw [if_neg hl, if_neg (by omega), if_pos h3]
    · unfold sfs_fread
      by_cases hl : len ≤ 0
      · rw [if_pos hl, if_neg (by omega)]
      · rw [if_neg hl, if_neg (by omega), if_pos h3]
  · intro hl h1 h2
    constructor
    · unfold sfs_fwrite
      rw [if_pos hl, if_neg (by omega)]
    · unfold sfs_fread
      rw [if_pos hl, if_neg (by omega)]
  · intro hout hl
    constructor
    · unfold sfs_fwrite
      rw [if_neg (by omega), if_pos (by omega)]
    · unfold sfs_fread
      rw [if_neg (by omega), if_pos (by omega)]

/-- Claim C9, witness: the amended theorem applied at fd 0 (the reserved
root-directory descriptor, `inode = 0`) of the start state. -/
theorem C9_witness :
    sfs_fwrite zeroFS 0 (fun _ => 7) 3 = some (0, zeroFS) ∧
    sfs_fread zeroFS 0 (fun _ => 7) 3 = some (0, (fun _ => 7), zeroFS) := by
  exact (C9_invalid_handles zeroFS 0 (fun _ => 7) 3).1 (by omega)
    (by norm_num [NUM_INODES]) (by norm_num [zeroFS])

/-! ### Claim C7 -/

/-- Claim C7: `sfs_fopen` returns −1 and changes no state whenever (a) the
name is `MAX_FILENAME` bytes or longer, (b) the name resolves to a
directory entry whose inode is already referenced by some descriptor
(at most one open descriptor per file), (c) the name resolves but no
descriptor slot is free, or (d) the name is new and either no inode has
`link_cnt = 0` or no descriptor slot is free. -/
theorem C7_open_failures (s : FS) (name : String) :
    (MAX_FILENAME ≤ name.length → sfs_fopen s name = (-1, s)) ∧
    (∀ i, dirFindFirst s.root name 0 NUM_FILE_INODES = some i →
      (∃ j, 1 ≤ j ∧ j < NUM_INODES ∧ (s.fdt j).inode = (i : Int) + 1) →
      sfs_fopen s name = (-1, s)) ∧
    (∀ i, dirFindFirst s.root name 0 NUM_FILE_INODES = some i →
      (∀ j, 1 ≤ j → j < NUM_INODES → (s.fdt j).inode ≠ (i : Int) + 1) →
      (∀ j, 1 ≤ j → j < NUM_INODES → (s.fdt j).inode ≠ -1) →
      sfs_fopen s name = (-1, s)) ∧
    (dirFindFirst s.root name 0 NUM_FILE_INODES = none →
      ((∀ i, 1 ≤ i → i < NUM_INODES → (s.inodes i).link_cnt ≠ 0) ∨
        (∀ j, 1 ≤ j → j < NUM_INODES → (s.fdt j).inode ≠ -1)) →
      sfs_fopen s name = (-1, s)) := by
  refine ⟨?_, ?_, ?_, ?_⟩
  · intro hlen
    unfold sfs_fopen
    rw [if_pos hlen]
  · intro i hfind ⟨j, hj1, hj2, hje⟩
    unfold sfs_fopen
    by_cases hlen : MAX_FILENAME ≤ name.length
    · rw [if_pos hlen]
    · rw [if_neg hlen, hfind]
      dsimp only
      have hscan : fopenFdScan s.fdt ((i : Int) + 1) 1 (NUM_INODES - 1) (-1) = none := by
        rw [fopenFdScan_none_iff]
        exact ⟨j - 1, by norm_num [NUM_INODES] at hj2 ⊢; omega,
          by rw [show 1 + (j - 1) = j from by omega]; exact hje⟩
      rw [hscan]
  · intro i hfind hnodup hnofree
    unfold sfs_fopen
    by_cases hlen : MAX_FILENAME ≤ name.length
    · rw [if_pos hlen]
    · rw [if_neg hlen, hfind]
      dsimp only
      have hnd : ∀ k, k < NUM_INODES - 1 → (s.fdt (1 + k)).inode ≠ (i : Int) + 1 := by
        intro k hk
        exact hnodup (1 + k) (by omega) (by norm_num [NUM_INODES] at hk ⊢; omega)
      rw [fopenFdScan_free s.fdt ((i : Int) + 1) (NUM_INODES - 1) 1 hnd]
      rw [fdtFindFree_none s.fdt (NUM_INODES - 1) 1 (fun k hk =>
        hnofree (1 + k) (by omega) (by norm_num [NUM_INODES] at hk ⊢; omega))]
      rfl
  · intro hfind hcase
    unfold sfs_fopen
    by_cases hlen : MAX_FILENAME ≤ name.length
    · rw [if_pos hlen]
    · rw [if_neg hlen, hfind]
      dsimp only
      rcases hcase with hno | hno
      · exact fopenCreate_noInode s name (NUM_INODES - 1) 1 (fun k hk =>
          hno (1 + k) (by omega) (by norm_num [NUM_INODES] at hk ⊢; omega))
      · exact fopenCreate_noFd s name (fdtFindFree_none s.fdt (NUM_INODES - 1) 1
          (fun k hk => hno (1 + k) (by omega)
            (by norm_num [NUM_INODES] at hk ⊢; omega))) (NUM_INODES - 1) 1

/-- Claim C7, witness: the theorem applied at the start state with a
64-byte name (name-too-long failure). -/
theorem C7_witness :
    sfs_fopen zeroFS "aaaaaaaaaaaaaaaaaaaaaaaaaaaaaaaaaaaaaaaaaaaaaaaaaaaaaaaaaaaaaaaa" =
      (-1, zeroFS) := by
  exact (C7_open_failures zeroFS _).1 (by decide)

/-! ### Claim C10 -/

theorem dirFindFirst_names_only (root1 root2 : Nat → DirEntry) (path : String)
    (h : ∀ k, (root1 k).names = (root2 k).names) :
    ∀ n i, dirFindFirst root1 path i n = dirFindFirst root2 path i n := by
  intro n
  induction n with
  | zero => intro i; rfl
  | succ n ih =>
    intro i
    simp only [dirFindFirst, h i]
    split
    · rfl
    · exact ih (i + 1)

theorem getfilesizeAux_names_only (root1 root2 : Nat → DirEntry)
    (inodes : Nat → Inode) (path : String)
    (h : ∀ k, (root1 k).names = (root2 k).names) :
    ∀ n i acc, getfilesizeAux root1 inodes path i n acc =
      getfilesizeAux root2 inodes path i n acc := by
  intro n
  induction n with
  | zero => intro i acc; rfl
  | succ n ih =>
    intro i acc
    simp only [getfilesizeAux, h i]
    exact ih (i + 1) _

/-- Claim C10: name resolution matches on the `names` field alone — the
resolution scans of size-query and open are invariant under arbitrary
changes of the entries' mode flags — and consequently, on any state with
inactive (cleared-name) slots whose inodes are as `remove`/format leaves
them, `sfs_getfilesize("")` returns 0 (not −1) and `sfs_remove("")` matches
the inactive slots and returns a positive inode index (not −1). -/
theorem C10_mode_blind_matching :
    (∀ (root1 root2 : Nat → DirEntry) (inodes : Nat → Inode) (path : String)
      (n i : Nat) (acc : Int), (∀ k, (root1 k).names = (root2 k).names) →
      dirFindFirst root1 path i n = dirFindFirst root2 path i n ∧
      getfilesizeAux root1 inodes path i n acc = getfilesizeAux root2 inodes path i n acc) ∧
    (∀ s : FS,
      (∃ k, k < NUM_FILE_INODES ∧ (s.root k).names = "" ∧ (s.root k).mode ≠ 1) →
      (∀ k, k < NUM_FILE_INODES → (s.root k).names = "" →
        (s.inodes (k + 1)).size = 0 ∧ (s.inodes (k + 1)).link_cnt ≠ 1) →
      sfs_getfilesize s "" = 0 ∧
      ∃ r, sfs_remove s "" = some r ∧ 0 < r.1) := by
  constructor
  · intro root1 root2 inodes path n i acc h
    exact ⟨dirFindFirst_names_only root1 root2 path h n i,
      getfilesizeAux_names_only root1 root2 inodes path h n i acc⟩
  · intro s hex hz
    obtain ⟨k0, hk0, hk0n, _⟩ := hex
    constructor
    · unfold sfs_getfilesize
      obtain ⟨j, hj, hjn, hres⟩ := getfilesizeAux_hit s.root s.inodes "" NUM_FILE_INODES
        0 (-1) ⟨k0, hk0, by simpa using hk0n.symm⟩
      rw [hres]
      have := (hz j (by simpa using hj) (by simpa using hjn.symm)).1
      simp only [Nat.zero_add] at this ⊢
      rw [this]
      rfl
    · unfold sfs_remove
      rcases removeScan_ret "" NUM_FILE_INODES 0 s (-1) with ⟨-, hnone⟩ | ⟨k, hk, hke, hret⟩
      · exact absurd hk0n (by simpa using hnone k0 hk0)
      · have hlink := (hz k (by simpa using hk) (by simpa using hke)).2
        have hguard : ¬ (0 < (removeScan s "" 0 NUM_FILE_INODES (-1)).1 ∧
            (((removeScan s "" 0 NUM_FILE_INODES (-1)).2).inodes
              (removeScan s "" 0 NUM_FILE_INODES (-1)).1.toNat).link_cnt = 1) := by
          rintro ⟨-, hcon⟩
          rw [removeScan_inodes, hret] at hcon
          have : (((k : Nat) : Int) + 1).toNat = k + 1 := by omega
          rw [show ((0 + k : Nat) : Int) + 1 = ((k : Nat) : Int) + 1 from by push_cast; ring,
            this] at hcon
          exact hlink hcon
        rw [if_neg hguard]
        refine ⟨_, rfl, ?_⟩
        rw [hret]
        have : ((0 + k : Nat) : Int) + 1 = ((k : Nat) : Int) + 1 := by push_cast; ring
        rw [this]
        omega

/-- Claim C10, witness: the theorem applied at the freshly formatted state,
where every directory slot is inactive with a zeroed name:
`sfs_getfilesize("")` yields 0 and `sfs_remove("")` yields inode index 127. -/
theorem C10_witness :
    sfs_getfilesize freshFS "" = 0 ∧
    ∃ r, sfs_remove freshFS "" = some r ∧ 0 < r.1 := by
  refine (C10_mode_blind_matching).2 freshFS ⟨0, by decide, by decide, by decide⟩ ?_
  decide

/-! ### Frame lemmas for the write loop -/

theorem writeLocate_frame (w : WLoop) (cb : Nat)
    (r : Sum WLoop (Nat × (Nat → Nat) × WLoop)) (h : writeLocate w cb = some r) :
    (match r with
     | Sum.inl w1 =>
        w1.rwptr = w.rwptr ∧ w1.offs = w.offs ∧ w1.written = w.written ∧
          w1.node.size = w.node.size ∧ w1.disk = w.disk
     | Sum.inr x =>
        x.2.2.rwptr = w.rwptr ∧ x.2.2.offs = w.offs ∧ x.2.2.written = w.written ∧
          x.2.2.node.size = w.node.size ∧ x.2.2.disk = w.disk) := by
  unfold writeLocate at h
  dsimp only at h
  by_cases hcb : cb < NUM_DIRECT_POINTERS
  · rw [if_pos hcb] at h
    split_ifs at h <;>
      (injection h with h; subst h; exact ⟨rfl, rfl, rfl, rfl, rfl⟩)
  · rw [if_neg hcb] at h
    by_cases hind : w.node.indirect = 0
    · by_cases halloc : get_free_bitmap_address w.fb = -1
      · rw [if_pos ⟨hind, halloc⟩] at h
        injection h with h; subst h; exact ⟨rfl, rfl, rfl, rfl, rfl⟩
      · rw [if_neg (by simp [halloc])] at h
        rw [if_pos hind, if_neg halloc] at h
        split_ifs at h <;>
          (injection h with h; subst h; exact ⟨rfl, rfl, rfl, rfl, rfl⟩)
    · rw [if_neg (by simp [hind])] at h
      rw [if_neg hind] at h
      split_ifs at h <;>
        (injection h with h; subst h; exact ⟨rfl, rfl, rfl, rfl, rfl⟩)

theorem writeLoop_delta (buf : Nat → Nat) :
    ∀ fuel toWrite w w' rem, writeLoop buf fuel w toWrite = some (w', rem) →
      w.rwptr ≤ w'.rwptr ∧
      w'.offs = w.offs + ((w'.rwptr : Int) - (w.rwptr : Int)) ∧
      w'.written = w.written + (w'.rwptr - w.rwptr) ∧
      toWrite - rem = w'.rwptr - w.rwptr ∧ rem ≤ toWrite ∧
      w'.node.size = w.node.size := by
  intro fuel
  induction fuel with
  | zero =>
    intro toWrite w w' rem h
    simp only [writeLoop, Option.some.injEq, Prod.mk.injEq] at h
    obtain ⟨h1, h2⟩ := h
    subst h1; subst h2
    refine ⟨le_refl _, by omega, by omega, by omega, le_refl _, rfl⟩
  | succ fuel ih =>
    intro toWrite w w' rem h
    simp only [writeLoop] at h
    by_cases h0 : toWrite = 0
    · rw [if_pos h0] at h
      simp only [Option.some.injEq, Prod.mk.injEq] at h
      obtain ⟨h1, h2⟩ := h
      subst h1; subst h2
      refine ⟨le_refl _, by omega, by omega, by omega, by omega, rfl⟩
    · rw [if_neg h0] at h
      by_cases hcb : MAX_DATA_BLOCKS_PER_FILE - 1 ≤ w.rwptr / BLOCK_SIZE
      · rw [if_pos hcb] at h
        simp only [Option.some.injEq, Prod.mk.injEq] at h
        obtain ⟨h1, h2⟩ := h
        subst h1; subst h2
        refine ⟨le_refl _, by omega, by omega, by omega, le_refl _, rfl⟩
      · rw [if_neg hcb] at h
        rcases hloc : writeLocate w (w.rwptr / BLOCK_SIZE) with _ | r
        · rw [hloc] at h; exact absurd h (by simp)
        · rw [hloc] at h
          rcases r with w1 | ⟨be, bbuf, w1⟩
          · have hf := writeLocate_frame w _ _ hloc
            dsimp only at h hf
            obtain ⟨f1, f2, f3, f4, -⟩ := hf
            simp only [Option.some.injEq, Prod.mk.injEq] at h
            obtain ⟨h1, h2⟩ := h
            subst h1; subst h2
            refine ⟨by omega, by rw [f2, f1]; omega, by omega, by omega, le_refl _, f4⟩
          · have hf := writeLocate_frame w _ _ hloc
            dsimp only at h hf
            obtain ⟨f1, f2, f3, f4, -⟩ := hf
            have hrec := ih _ _ _ _ h
            obtain ⟨g1, g2, g3, g4, g5, g6⟩ := hrec
            dsimp only at g1 g2 g3 g4 g5 g6
            have hch1 : min (BLOCK_SIZE - w1.rwptr % BLOCK_SIZE) toWrite ≤ toWrite :=
              Nat.min_le_right _ _
            refine ⟨by omega, by omega, by omega, by omega, by omega, by rw [g6, f4]⟩

/-! ### Claim C4 -/

/-- Claim C4: for every write call that returns `some (n, s')`, if `n > 0`
(at least one byte written) the inode's size becomes exactly
`size_initial + max 0 (rwptr_final - size_initial)`, where `rwptr_final` is
the descriptor's r/w pointer after the call; and if `n = 0` every inode's
size is unchanged. -/
theorem C4_write_size_update (s : FS) (fid : Int) (buf : Nat → Nat) (len : Int)
    (n : Int) (s' : FS) (h : sfs_fwrite s fid buf len = some (n, s')) :
    (0 < n →
      ((s'.inodes (s.fdt fid.toNat).inode.toNat).size : Int) =
        ((s.inodes (s.fdt fid.toNat).inode.toNat).size : Int) +
          max 0 (((s'.fdt fid.toNat).rwptr : Int) -
            ((s.inodes (s.fdt fid.toNat).inode.toNat).size : Int))) ∧
    (n = 0 → ∀ i, (s'.inodes i).size = (s.inodes i).size) := by
  unfold sfs_fwrite at h
  by_cases hl : len ≤ 0
  · rw [if_pos hl] at h
    by_cases hr : fid < 0 ∨ (NUM_INODES : Int) ≤ fid
    · rw [if_pos hr] at h; exact absurd h (by simp)
    · rw [if_neg hr] at h
      simp only [Option.some.injEq, Prod.mk.injEq] at h
      obtain ⟨h1, h2⟩ := h
      subst h2
      exact ⟨fun hn => absurd h1 (by omega), fun _ i => rfl⟩
  · rw [if_neg hl] at h
    by_cases hr : fid < 0 ∨ (NUM_INODES : Int) ≤ fid
    · rw [if_pos hr] at h; exact absurd h (by simp)
    · rw [if_neg hr] at h
      dsimp only at h
      by_cases hi : (s.fdt fid.toNat).inode ≤ 0
      · rw [if_pos hi] at h
        simp only [Option.some.injEq, Prod.mk.injEq] at h
        obtain ⟨h1, h2⟩ := h
        subst h2
        exact ⟨fun hn => absurd h1 (by omega), fun _ i => rfl⟩
      · rw [if_neg hi] at h
        by_cases hi2 : (NUM_INODES : Int) ≤ (s.fdt fid.toNat).inode
        · rw [if_pos hi2] at h; exact absurd h (by simp)
        · rw [if_neg hi2] at h
          by_cases hpre :
              (s.inodes (s.fdt fid.toNat).inode.toNat).size < (s.fdt fid.toNat).rwptr ∨
                MAX_DATA_BLOCKS_PER_FILE * BLOCK_SIZE ≤ (s.fdt fid.toNat).rwptr
          · rw [if_pos hpre] at h
            simp only [Option.some.injEq, Prod.mk.injEq] at h
            obtain ⟨h1, h2⟩ := h
            subst h2
            exact ⟨fun hn => absurd h1 (by omega), fun _ i => rfl⟩
          · rw [if_neg hpre] at h
            rcases hw : writeLoop buf len.toNat
                (fwriteInit s (s.fdt fid.toNat)
                  (s.inodes (s.fdt fid.toNat).inode.toNat)) len.toNat with _ | ⟨wf, rem⟩
            · rw [hw] at h; exact absurd h (by simp)
            · rw [hw] at h
              dsimp only at h
              have hd := writeLoop_delta buf _ _ _ _ _ hw
              obtain ⟨g1, g2, g3, g4, g5, g6⟩ := hd
              simp only [fwriteInit] at g1 g2 g3 g4 g6
              by_cases hrem : rem ≠ len.toNat
              · rw [if_pos hrem] at h
                simp only [Option.some.injEq, Prod.mk.injEq] at h
                obtain ⟨h1, h2⟩ := h
                subst h2
                constructor
                · intro hn
                  simp only [upd_same]
                  split_ifs with hoffs
                  · push_cast
                    omega
                  · omega
                · intro hn0
                  exact absurd hn0 (by omega)
              · rw [if_neg hrem] at h
                simp only [Option.some.injEq, Prod.mk.injEq] at h
                obtain ⟨h1, h2⟩ := h
                subst h2
                constructor
                · intro hn
                  exact absurd hn (by omega)
                · intro hn0 i
                  by_cases hii : i = (s.fdt fid.toNat).inode.toNat
                  · subst hii
                    simp only [upd_same]
                    exact g6
                  · simp only [upd_other _ _ _ _ hii]

/-- Claim C4, witness: the theorem applied to the concrete 3-byte write
into the fresh file "a" (size goes from 0 to 3). -/
theorem C4_witness : (c8s3.inodes 1).size = 3 := by
  have h := (C4_write_size_update traceA2 1 (fun _ => 120) 3 3 c8s3 rfl).1 (by omega)
  have e1 : (traceA2.fdt (1 : Int).toNat).inode.toNat = 1 := rfl
  have e2 : (traceA2.inodes 1).size = 0 := rfl
  have e3 : (c8s3.fdt (1 : Int).toNat).rwptr = 3 := rfl
  rw [e1, e2, e3] at h
  omega

/-! ### Claim C2 -/

theorem countOnes_indicator (c : Nat) :
    ∀ n (fb : Nat → Nat), (∀ i, i < n → fb i = if i < c then 1 else 0) →
      countOnes fb n = min c n := by
  intro n
  induction n with
  | zero => intro fb _; simp [countOnes]
  | succ n ih =>
    intro fb h
    simp only [countOnes]
    rw [ih fb (fun i hi => h i (by omega)), h n (by omega)]
    by_cases hnc : n < c
    · rw [if_pos hnc]
      norm_num
      omega
    · rw [if_neg hnc]
      norm_num
      omega

theorem countOnes_single (c : Nat) :
    ∀ n (fb : Nat → Nat), (∀ i, i < n → fb i = if i = c then 1 else 0) →
      countOnes fb n = if c < n then 1 else 0 := by
  intro n
  induction n with
  | zero => intro fb _; simp [countOnes]
  | succ n ih =>
    intro fb h
    simp only [countOnes]
    rw [ih fb (fun i hi => h i (by omega)), h n (by omega)]
    by_cases hnc : n = c
    · subst hnc
      norm_num
    · rw [if_neg hnc]
      norm_num
      by_cases hlt : c < n
      · rw [if_pos hlt, if_pos (by omega)]
      · rw [if_neg hlt, if_neg (by omega)]

set_option maxRecDepth 8000 in
set_option maxHeartbeats 1000000 in
theorem c2after_fb : c2after.free_blocks =
    upd (upd (upd (upd (upd (upd (upd (upd (upd (upd (upd (upd (upd
      (fun i => if i < 14 then 1 else 0)
      0 0) 1 0) 2 0) 3 0) 4 0) 5 0) 6 0) 7 0) 8 0) 9 0) 10 0) 11 0) 13 0 := rfl

set_option maxRecDepth 8000 in
set_option maxHeartbeats 1000000 in
theorem c2after_fb_pointwise (i : Nat) :
    c2after.free_blocks i = if i = 12 then 1 else 0 := by
  rw [c2after_fb]
  by_cases h12 : i = 12
  · subst h12; decide
  · by_cases h13 : i = 13
    · subst h13; decide
    · by_cases h11 : i = 11
      · subst h11; decide
      · by_cases h10 : i = 10
        · subst h10; decide
        · by_cases h9 : i = 9
          · subst h9; decide
          · by_cases h8 : i = 8
            · subst h8; decide
            · by_cases h7 : i = 7
              · subst h7; decide
              · by_cases h6 : i = 6
                · subst h6; decide
                · by_cases h5 : i = 5
                  · subst h5; decide
                  · by_cases h4 : i = 4
                    · subst h4; decide
                    · by_cases h3 : i = 3
                      · subst h3; decide
                      · by_cases h2 : i = 2
                        · subst h2; decide
                        · by_cases h1 : i = 1
                          · subst h1; decide
                          · by_cases h0 : i = 0
                            · subst h0; decide
                            · rw [upd_other _ _ _ _ h13, upd_other _ _ _ _ h11, upd_other _ _ _ _ h10, upd_other _ _ _ _ h9, upd_other _ _ _ _ h8, upd_other _ _ _ _ h7, upd_other _ _ _ _ h6, upd_other _ _ _ _ h5, upd_other _ _ _ _ h4, upd_other _ _ _ _ h3, upd_other _ _ _ _ h2, upd_other _ _ _ _ h1, upd_other _ _ _ _ h0]
                              show (if i < 14 then 1 else 0) = _
                              rw [if_neg (by omega), if_neg h12]


set_option maxRecDepth 8000 in
/-- Claim C2 (the code evaluated at the failing input): removing the
13-block file "g" (12 direct data blocks, 1 indirect data block, plus the
indirect index block at bitmap slot 12) drops the bitmap count of 1-bytes
from 14 to 1, i.e. by the 13 data blocks only: the indirect index block's
own bitmap byte (slot 12) is left set — `sfs_remove` never clears it — so
the claimed decrease of data blocks + 1 does not happen. -/
theorem C2_remove_leaves_indirect_bitmap_byte :
    sfs_remove c2state "g" = some (1, c2after) ∧
    bitmapCount c2state = 14 ∧
    inodeDataBlocks (c2state.inodes 1) c2state.disk = 13 ∧
    (c2state.inodes 1).indirect ≠ 0 ∧
    bitmapCount c2after = 1 ∧
    c2after.free_blocks 12 = 1 := by
  refine ⟨rfl, ?_, by decide, by decide, ?_, by decide⟩
  · unfold bitmapCount
    rw [countOnes_indicator 14 MAX_DATA_BLOCKS_SCALED_DOWN c2state.free_blocks
      (fun i _ => rfl)]
    decide
  · unfold bitmapCount
    rw [countOnes_single 12 MAX_DATA_BLOCKS_SCALED_DOWN c2after.free_blocks
      (fun i _ => c2after_fb_pointwise i)]
    decide

/-! ### Claim C3 -/

set_option maxRecDepth 8000 in
/-- Claim C3 (the code evaluated at the failing input): after
`mksfs(1); open("a"); write(fd, 104…, 5); mksfs(1); open("b")`, inode 1 is
allocated (`link_cnt = 1`) with `size = 0` yet still references one data
block — its stale `direct[0] = 18` survives the mid-session re-format
because `mksfs(fresh)` resets only `link_cnt` and `sfs_fopen`'s create
branch resets only `mode`/`link_cnt`/`size` — so the claimed invariant
`referenced data blocks = ⌈size / BLOCK_SIZE⌉` fails (1 ≠ 0). -/
theorem C3_stale_pointer_after_refresh :
    sfs_fopen freshFS "a" = (1, traceA2) ∧
    sfs_fwrite traceA2 1 (fun _ => 104) 5 = some (5, c3s3) ∧
    (sfs_fopen c3s4 "b").1 = 1 ∧
    (c3s5.inodes 1).link_cnt = 1 ∧
    (c3s5.inodes 1).size = 0 ∧
    (c3s5.inodes 1).direct 0 = 18 ∧
    inodeDataBlocks (c3s5.inodes 1) c3s5.disk = 1 ∧
    blocksFor (c3s5.inodes 1).size = 0 := by
  exact ⟨rfl, rfl, rfl, rfl, rfl, rfl, by decide, by decide⟩

/-! ### Claim C8 -/

theorem fdtFindFree_exists (fdt : Nat → FileDescriptor) :
    ∀ n j, (∃ k, k < n ∧ (fdt (j + k)).inode = -1) →
      ∃ m, fdtFindFree fdt j n = some m ∧ j ≤ m ∧ m < j + n ∧ (fdt m).inode = -1 := by
  intro n
  induction n with
  | zero => rintro j ⟨k, hk, -⟩; omega
  | succ n ih =>
    intro j hex
    by_cases h0 : (fdt j).inode = -1
    · exact ⟨j, by simp [fdtFindFree, h0], by omega, by omega, h0⟩
    · obtain ⟨k, hk, hke⟩ := hex
      have hk0 : k ≠ 0 := by
        intro hcon
        subst hcon
        exact h0 (by simpa using hke)
      obtain ⟨m, hm, hm1, hm2, hm3⟩ := ih (j + 1)
        ⟨k - 1, by omega, by rw [show j + 1 + (k - 1) = j + k from by omega]; exact hke⟩
      exact ⟨m, by simp [fdtFindFree, h0]; exact hm, by omega, by omega, hm3⟩

set_option maxRecDepth 8000 in
/-- Claim C8: reopening a file already present in the directory and not
currently open returns a descriptor whose r/w pointer equals the file's
current `inode.size` (append-at-end); consequently the concrete sequence
`open "a"; write "xxx"; close; open "a"; write "y"; close` leaves "a" with
contents `xxxy` (bytes 120,120,120,121) and size 4. -/
theorem C8_append_on_reopen :
    (∀ (s : FS) (name : String) (i0 : Nat), name.length < MAX_FILENAME →
      i0 < NUM_FILE_INODES → name = (s.root i0).names →
      (∀ j, j < NUM_FILE_INODES → name = (s.root j).names → j = i0) →
      (∀ j, 1 ≤ j → j < NUM_INODES → (s.fdt j).inode ≠ (i0 : Int) + 1) →
      (∃ j, 1 ≤ j ∧ j < NUM_INODES ∧ (s.fdt j).inode = -1) →
      ∃ (fd : Nat) (s1 : FS), sfs_fopen s name = ((fd : Int), s1) ∧
        1 ≤ fd ∧ fd < NUM_INODES ∧
        (s1.fdt fd).inode = (i0 : Int) + 1 ∧
        (s1.fdt fd).rwptr = (s.inodes (i0 + 1)).size) ∧
    (sfs_fopen c8s4 "a" = (1, c8s5) ∧ (c8s5.fdt 1).rwptr = 3 ∧
      sfs_fwrite c8s5 1 (fun _ => 121) 1 = some (1, c8s6) ∧
      (sfs_fclose c8s6 1).1 = 0 ∧
      (c8s6.inodes 1).size = 4 ∧
      fileByte (c8s6.inodes 1) c8s6.disk 0 = 120 ∧
      fileByte (c8s6.inodes 1) c8s6.disk 1 = 120 ∧
      fileByte (c8s6.inodes 1) c8s6.disk 2 = 120 ∧
      fileByte (c8s6.inodes 1) c8s6.disk 3 = 121 ∧
      sfs_getfilesize c8s6 "a" = 4) := by
  constructor
  · intro s name i0 hlen hi0 hmatch huniq hnotopen hfree
    have hfind : dirFindFirst s.root name 0 NUM_FILE_INODES = some i0 := by
      have h := dirFindFirst_found s.root name i0 0 NUM_FILE_INODES (by omega)
        (fun j hj hcon => by
          have := huniq j (by omega) (by simpa using hcon)
          omega)
        (by simpa using hmatch)
      simpa using h
    have hnd : ∀ k, k < NUM_INODES - 1 → (s.fdt (1 + k)).inode ≠ (i0 : Int) + 1 :=
      fun k hk => hnotopen (1 + k) (by omega)
        (by norm_num [NUM_INODES] at hk ⊢; omega)
    obtain ⟨j0, hj0a, hj0b, hj0c⟩ := hfree
    obtain ⟨m, hmeq, hm1, hm2, hmfree⟩ := fdtFindFree_exists s.fdt (NUM_INODES - 1) 1
      ⟨j0 - 1, by norm_num [NUM_INODES] at hj0b ⊢; omega,
        by rw [show 1 + (j0 - 1) = j0 from by omega]; exact hj0c⟩
    have hsize : sfs_getfilesize s name = ((s.inodes (i0 + 1)).size : Int) := by
      unfold sfs_getfilesize
      exact getfilesizeAux_unique s.root s.inodes name i0 NUM_FILE_INODES 0 (-1)
        (by omega) (by omega) hmatch (fun j h1 h2 h3 => huniq j (by omega) h3)
    have heq : sfs_fopen s name = ((m : Int),
        { s with
          fdt := upd s.fdt ((m : Int)).toNat
            ⟨(i0 : Int) + 1, (sfs_getfilesize s name).toNat⟩
          root := upd s.root i0 { s.root i0 with mode := 1 }
          inodes := upd s.inodes (i0 + 1) { s.inodes (i0 + 1) with link_cnt := 1 } }) := by
      unfold sfs_fopen
      rw [if_neg (by omega), hfind]
      dsimp only
      rw [fopenFdScan_free s.fdt ((i0 : Int) + 1) (NUM_INODES - 1) 1 hnd, hmeq]
      dsimp only
      rw [if_neg (by omega)]
    refine ⟨m, _, heq, by omega, by norm_num [NUM_INODES] at hm2 ⊢; omega, ?_, ?_⟩
    · simp only [Int.toNat_ofNat, upd_same]
    · simp only [Int.toNat_ofNat, upd_same]
      rw [hsize]
      exact Int.toNat_ofNat _
  · exact ⟨rfl, rfl, rfl, rfl, rfl, by decide, by decide, by decide, by decide, rfl⟩

/-- Claim C8, witness: the reopen half of the theorem applied at the
concrete state `c8s4` (file "a" of size 3, closed): the returned descriptor
is bound to inode 1 with its r/w pointer at 3. -/
theorem C8_witness :
    ∃ (fd : Nat) (s1 : FS), sfs_fopen c8s4 "a" = ((fd : Int), s1) ∧
      1 ≤ fd ∧ fd < NUM_INODES ∧
      (s1.fdt fd).inode = (0 : Int) + 1 ∧
      (s1.fdt fd).rwptr = (c8s4.inodes (0 + 1)).size := by
  exact C8_append_on_reopen.1 c8s4 "a" 0 (by decide) (by decide) (by decide)
    (by decide) (by decide) ⟨1, by omega, by decide, by decide⟩

/-! ### The read loop on a hole-free range -/

theorem readLoop_spec (dk : Nat → Nat → Nat) (nd : Inode) (buf : Nat → Nat) :
    ∀ fuel toRead r, toRead ≤ fuel →
      r.rwptr + toRead ≤ MAX_FILE_BYTES →
      (∀ b, r.rwptr / BLOCK_SIZE ≤ b → b < blocksFor (r.rwptr + toRead) →
        fileBlockAddr nd dk b ≠ 0) →
      (r.didLoad = true → r.ptrBuf = decodePtrs (dk nd.indirect)) →
      (readLoop dk nd buf fuel r toRead).rwptr = r.rwptr + toRead ∧
      (readLoop dk nd buf fuel r toRead).bytesRead = r.bytesRead + toRead ∧
      (∀ j, (readLoop dk nd buf fuel r toRead).out j =
        if r.bytesRead ≤ j ∧ j < r.bytesRead + toRead
        then fileByte nd dk (r.rwptr + (j - r.bytesRead))
        else r.out j) := by
  intro fuel
  induction fuel with
  | zero =>
    intro toRead r hf _ _ _
    have ht0 : toRead = 0 := by omega
    subst ht0
    refine ⟨by simp [readLoop], by simp [readLoop], fun j => ?_⟩
    rw [if_neg (by omega)]
    simp [readLoop]
  | succ fuel ih =>
    intro toRead r hf hmax hnohole hload
    by_cases ht0 : toRead = 0
    · subst ht0
      refine ⟨by simp [readLoop], by simp [readLoop], fun j => ?_⟩
      rw [if_neg (by omega)]
      simp [readLoop]
    · have hBS : BLOCK_SIZE = 1024 := rfl
      have hMF : MAX_FILE_BYTES = 274432 := rfl
      have hMD : MAX_DATA_BLOCKS_PER_FILE = 269 := rfl
      have hND : NUM_DIRECT_POINTERS = 12 := rfl
      have hcb : ¬ (MAX_DATA_BLOCKS_PER_FILE - 1 ≤ r.rwptr / BLOCK_SIZE) := by
        rw [hMD, hBS]
        rw [hMF] at hmax
        omega
      have hcbrange : r.rwptr / BLOCK_SIZE < blocksFor (r.rwptr + toRead) := by
        unfold blocksFor
        rw [hBS]
        omega
      have haddr := hnohole (r.rwptr / BLOCK_SIZE) (le_refl _) hcbrange
      simp only [readLoop]
      rw [if_neg ht0, if_neg hcb]
      by_cases hdir : r.rwptr / BLOCK_SIZE < NUM_DIRECT_POINTERS
      · rw [if_pos hdir]
        have haddr2 : 0 < nd.direct (r.rwptr / BLOCK_SIZE) := by
          unfold fileBlockAddr at haddr
          rw [if_pos hdir] at haddr
          omega
        rw [if_pos haddr2]
        have haddreq : nd.direct (r.rwptr / BLOCK_SIZE) =
            fileBlockAddr nd dk (r.rwptr / BLOCK_SIZE) := by
          unfold fileBlockAddr
          rw [if_pos hdir]
        set chunk := min (BLOCK_SIZE - r.rwptr % BLOCK_SIZE) toRead with hchunk
        have hch1 : 1 ≤ chunk := by rw [hchunk, hBS]; omega
        have hch2 : chunk ≤ toRead := Nat.min_le_right _ _
        have hch3 : r.rwptr % BLOCK_SIZE + chunk ≤ BLOCK_SIZE := by
          rw [hchunk, hBS] at *
          omega
        obtain ⟨ih1, ih2, ih3⟩ := ih (toRead - chunk)
          { r with
            out := memcpy r.out r.bytesRead (dk (nd.direct (r.rwptr / BLOCK_SIZE)))
              (r.rwptr % BLOCK_SIZE) chunk
            bytesRead := r.bytesRead + chunk
            rwptr := r.rwptr + chunk }
          (by omega) (by dsimp only; omega)
          (by
            dsimp only
            intro b hb1 hb2
            refine hnohole b ?_ ?_
            · calc r.rwptr / BLOCK_SIZE ≤ (r.rwptr + chunk) / BLOCK_SIZE :=
                Nat.div_le_div_right (by omega)
              _ ≤ b := hb1
            · have : r.rwptr + chunk + (toRead - chunk) = r.rwptr + toRead := by omega
              rw [this] at hb2
              exact hb2)
          (by dsimp only; exact hload)
        dsimp only at ih1 ih2 ih3
        refine ⟨by rw [ih1]; omega, by rw [ih2]; omega, fun j => ?_⟩
        rw [ih3 j]
        by_cases hj1 : r.bytesRead ≤ j ∧ j < r.bytesRead + toRead
        · rw [if_pos hj1]
          by_cases hj2 : j < r.bytesRead + chunk
          · rw [if_neg (by omega)]
            rw [memcpy_in _ _ _ _ _ _ (by omega) (by omega)]
            unfold fileByte
            have hdiv : (r.rwptr + (j - r.bytesRead)) / BLOCK_SIZE =
                r.rwptr / BLOCK_SIZE := by
              rw [hBS] at *
              omega
            have hmod : (r.rwptr + (j - r.bytesRead)) % BLOCK_SIZE =
                r.rwptr % BLOCK_SIZE + (j - r.bytesRead) := by
              rw [hBS] at *
              omega
            rw [hdiv, hmod, haddreq]
          · rw [if_pos (by omega)]
            have harg : r.rwptr + chunk + (j - (r.bytesRead + chunk)) =
                r.rwptr + (j - r.bytesRead) := by omega
            rw [harg]
        · rw [if_neg hj1, if_neg (by omega)]
          rw [memcpy_out _ _ _ _ _ _ (by omega)]
      · rw [if_neg hdir]
        have hind : nd.indirect ≠ 0 := by
          unfold fileBlockAddr at haddr
          rw [if_neg hdir] at haddr
          by_contra hcon
          rw [if_pos hcon] at haddr
          exact haddr rfl
        have hpb : (if r.didLoad = false ∧ 0 < nd.indirect
              then decodePtrs (dk nd.indirect) else r.ptrBuf) =
            decodePtrs (dk nd.indirect) := by
          by_cases hdl : r.didLoad = false
          · rw [if_pos ⟨hdl, by omega⟩]
          · rw [if_neg (by simp [hdl])]
            exact hload (by revert hdl; cases r.didLoad <;> simp)
        have hdl : (if r.didLoad = false ∧ 0 < nd.indirect
              then true else r.didLoad) = true := by
          by_cases hdl : r.didLoad = false
          · rw [if_pos ⟨hdl, by omega⟩]
          · rw [if_neg (by simp [hdl])]
            revert hdl; cases r.didLoad <;> simp
        rw [hpb, hdl]
        have haddr2 : 0 < decodePtrs (dk nd.indirect)
            (r.rwptr / BLOCK_SIZE - NUM_DIRECT_POINTERS) := by
          unfold fileBlockAddr at haddr
          rw [if_neg hdir, if_neg hind] at haddr
          omega
        rw [if_pos ⟨rfl, haddr2⟩]
        have haddreq : decodePtrs (dk nd.indirect)
            (r.rwptr / BLOCK_SIZE - NUM_DIRECT_POINTERS) =
            fileBlockAddr nd dk (r.rwptr / BLOCK_SIZE) := by
          unfold fileBlockAddr
          rw [if_neg hdir, if_neg hind]
        set chunk := min (BLOCK_SIZE - r.rwptr % BLOCK_SIZE) toRead with hchunk
        have hch1 : 1 ≤ chunk := by rw [hchunk, hBS]; omega
        have hch2 : chunk ≤ toRead := Nat.min_le_right _ _
        have hch3 : r.rwptr % BLOCK_SIZE + chunk ≤ BLOCK_SIZE := by
          rw [hchunk, hBS] at *
          omega
        obtain ⟨ih1, ih2, ih3⟩ := ih (toRead - chunk)
          { r with
            ptrBuf := decodePtrs (dk nd.indirect)
            didLoad := true
            out := memcpy r.out r.bytesRead
              (dk (decodePtrs (dk nd.indirect)
                (r.rwptr / BLOCK_SIZE - NUM_DIRECT_POINTERS)))
              (r.rwptr % BLOCK_SIZE) chunk
            bytesRead := r.bytesRead + chunk
            rwptr := r.rwptr + chunk }
          (by omega) (by dsimp only; omega)
          (by
            dsimp only
            intro b hb1 hb2
            refine hnohole b ?_ ?_
            · calc r.rwptr / BLOCK_SIZE ≤ (r.rwptr + chunk) / BLOCK_SIZE :=
                Nat.div_le_div_right (by omega)
              _ ≤ b := hb1
            · have : r.rwptr + chunk + (toRead - chunk) = r.rwptr + toRead := by omega
              rw [this] at hb2
              exact hb2)
          (by dsimp only; intro _; rfl)
        dsimp only at ih1 ih2 ih3
        refine ⟨by rw [ih1]; omega, by rw [ih2]; omega, fun j => ?_⟩
        rw [ih3 j]
        by_cases hj1 : r.bytesRead ≤ j ∧ j < r.bytesRead + toRead
        · rw [if_pos hj1]
          by_cases hj2 : j < r.bytesRead + chunk
          · rw [if_neg (by omega)]
            rw [memcpy_in _ _ _ _ _ _ (by omega) (by omega)]
            unfold fileByte
            have hdiv : (r.rwptr + (j - r.bytesRead)) / BLOCK_SIZE =
                r.rwptr / BLOCK_SIZE := by
              rw [hBS] at *
              omega
            have hmod : (r.rwptr + (j - r.bytesRead)) % BLOCK_SIZE =
                r.rwptr % BLOCK_SIZE + (j - r.bytesRead) := by
              rw [hBS] at *
              omega
            rw [hdiv, hmod, haddreq]
          · rw [if_pos (by omega)]
            have harg : r.rwptr + chunk + (j - (r.bytesRead + chunk)) =
                r.rwptr + (j - r.bytesRead) := by omega
            rw [harg]
        · rw [if_neg hj1, if_neg (by omega)]
          rw [memcpy_out _ _ _ _ _ _ (by omega)]

/-! ### Claim C6 -/

/-- Claim C6: `sfs_fread` returns 0 with the state and the caller's buffer
untouched when a precondition fails (`length ≤ 0`, descriptor not bound to
a file inode, or `rwptr ≥ size`); otherwise, on a file whose body is a
contiguous allocated prefix (no holes, `size ≤ MAX_FILE_BYTES`), it copies
exactly `min(length, size − rwptr)` bytes of file content into the caller's
buffer (leaving the rest of the buffer untouched), returns that count, and
advances the r/w pointer by it, changing nothing else. -/
theorem C6_read_spec (s : FS) (fid : Int) (buf : Nat → Nat) (len : Int)
    (hr0 : 0 ≤ fid) (hr1 : fid < (NUM_INODES : Int)) :
    ((len ≤ 0 ∨ (s.fdt fid.toNat).inode ≤ 0 ∨
        (1 ≤ (s.fdt fid.toNat).inode ∧ (s.fdt fid.toNat).inode < (NUM_INODES : Int) ∧
          (s.inodes (s.fdt fid.toNat).inode.toNat).size ≤ (s.fdt fid.toNat).rwptr)) →
      sfs_fread s fid buf len = some (0, buf, s)) ∧
    (∀ ni : Nat, (s.fdt fid.toNat).inode = (ni : Int) → 1 ≤ ni → ni < NUM_INODES →
      0 < len →
      (s.fdt fid.toNat).rwptr < (s.inodes ni).size →
      (s.inodes ni).size ≤ MAX_FILE_BYTES →
      noHoles (s.inodes ni) s.disk →
      ∃ out1,
        sfs_fread s fid buf len = some
          (((min len.toNat ((s.inodes ni).size - (s.fdt fid.toNat).rwptr) : Nat) : Int),
            out1,
            { s with fdt := (upd s.fdt fid.toNat
                ⟨(ni : Int), (s.fdt fid.toNat).rwptr +
                  min len.toNat ((s.inodes ni).size - (s.fdt fid.toNat).rwptr)⟩) }) ∧
        (∀ j, j < min len.toNat ((s.inodes ni).size - (s.fdt fid.toNat).rwptr) →
          out1 j = fileByte (s.inodes ni) s.disk ((s.fdt fid.toNat).rwptr + j)) ∧
        (∀ j, min len.toNat ((s.inodes ni).size - (s.fdt fid.toNat).rwptr) ≤ j →
          out1 j = buf j)) := by
  constructor
  · intro hpre
    unfold sfs_fread
    by_cases hl : len ≤ 0
    · rw [if_pos hl, if_neg (by omega)]
    · rw [if_neg hl, if_neg (by omega)]
      dsimp only
      by_cases hi : (s.fdt fid.toNat).inode ≤ 0
      · rw [if_pos hi]
      · rcases hpre with h | h | ⟨h1, h2, h3⟩
        · omega
        · omega
        · rw [if_neg hi, if_neg (by omega), if_pos h3]
  · intro ni heq h1 h2 hlen hrw hsz hnh
    unfold sfs_fread
    rw [if_neg (by omega), if_neg (by omega)]
    dsimp only
    simp only [heq, Int.toNat_ofNat]
    rw [if_neg (by omega), if_neg (by omega), if_neg (by omega)]
    obtain ⟨ih1, ih2, ih3⟩ := readLoop_spec s.disk (s.inodes ni) buf
      (min len.toNat ((s.inodes ni).size - (s.fdt fid.toNat).rwptr))
      (min len.toNat ((s.inodes ni).size - (s.fdt fid.toNat).rwptr))
      { rwptr := (s.fdt fid.toNat).rwptr, out := buf, bytesRead := 0,
        ptrBuf := fun _ => 0, didLoad := false }
      (le_refl _)
      (by dsimp only; omega)
      (by
        dsimp only
        intro b hb1 hb2
        refine hnh b ?_
        unfold blocksFor at hb2 ⊢
        have hBS : BLOCK_SIZE = 1024 := rfl
        rw [hBS] at hb2 ⊢
        omega)
      (by simp)
    dsimp only at ih1 ih2 ih3
    refine ⟨(readLoop s.disk (s.inodes ni) buf
        (min len.toNat ((s.inodes ni).size - (s.fdt fid.toNat).rwptr))
        { rwptr := (s.fdt fid.toNat).rwptr, out := buf, bytesRead := 0,
          ptrBuf := fun _ => 0, didLoad := false }
        (min len.toNat ((s.inodes ni).size - (s.fdt fid.toNat).rwptr))).out,
      ?_, fun j hj => ?_, fun j hj => ?_⟩
    · rw [ih1, ih2]
      norm_num
    · rw [ih3 j, if_pos (by omega), Nat.sub_zero]
    · rw [ih3 j, if_neg (by omega)]

/-- Claim C6, witness: the theorem applied to the concrete state `c8s3`
(file "a" holding 3 bytes of value 120, descriptor 1 at offset 0 after the
re-seek below): reading 2 bytes returns 2 and copies bytes 120, 120. -/
theorem C6_witness :
    ∃ out1,
      sfs_fread c6state 1 (fun _ => 7) 2 = some
        (((min (2 : Int).toNat ((c6state.inodes 1).size - (c6state.fdt (1 : Int).toNat).rwptr) : Nat) : Int),
          out1,
          { c6state with fdt := (upd c6state.fdt (1 : Int).toNat
              ⟨((1 : Nat) : Int), (c6state.fdt (1 : Int).toNat).rwptr +
                min (2 : Int).toNat ((c6state.inodes 1).size - (c6state.fdt (1 : Int).toNat).rwptr)⟩) }) ∧
      (∀ j, j < min (2 : Int).toNat ((c6state.inodes 1).size - (c6state.fdt (1 : Int).toNat).rwptr) →
        out1 j = fileByte (c6state.inodes 1) c6state.disk ((c6state.fdt (1 : Int).toNat).rwptr + j)) ∧
      (∀ j, min (2 : Int).toNat ((c6state.inodes 1).size - (c6state.fdt (1 : Int).toNat).rwptr) ≤ j →
        out1 j = (fun _ => 7) j) := by
  refine (C6_read_spec c6state 1 (fun _ => 7) 2 (by omega) (by norm_num [NUM_INODES])).2
    1 (by decide) (by decide) (by decide) (by omega) (by decide) (by decide) ?_
  intro b hb
  have hb1 : blocksFor (c6state.inodes 1).size = 1 := by decide
  have hb0 : b = 0 := by omega
  subst hb0
  decide

/-! ### The fresh sequential write (towards the round trip) -/

theorem freshAddr_inj {b b' : Nat} (h : b ≠ b') : freshAddr b ≠ freshAddr b' := by
  unfold freshAddr
  have hd : DATA_BLOCKS_OFFSET = 18 := rfl
  have hn : NUM_DIRECT_POINTERS = 12 := rfl
  rw [hd, hn]
  split_ifs <;> omega

theorem freshAddr_ne_index (b : Nat) :
    freshAddr b ≠ DATA_BLOCKS_OFFSET + NUM_DIRECT_POINTERS := by
  unfold freshAddr
  have hd : DATA_BLOCKS_OFFSET = 18 := rfl
  have hn : NUM_DIRECT_POINTERS = 12 := rfl
  rw [hd, hn]
  split_ifs <;> omega

theorem freshAddr_lt (b : Nat) (h : b < MAX_DATA_BLOCKS_PER_FILE) :
    freshAddr b < 2 ^ 32 := by
  unfold freshAddr
  have hd : DATA_BLOCKS_OFFSET = 18 := rfl
  have hn : NUM_DIRECT_POINTERS = 12 := rfl
  have hm : MAX_DATA_BLOCKS_PER_FILE = 269 := rfl
  rw [hd, hn]
  rw [hm] at h
  split_ifs <;> norm_num <;> omega

theorem getFree_indicator (fb : Nat → Nat) (c : Nat)
    (hc : c < MAX_DATA_BLOCKS_SCALED_DOWN)
    (h : ∀ i, fb i = if i < c then 1 else 0) :
    get_free_bitmap_address fb = (c : Int) := by
  unfold get_free_bitmap_address
  have hfound := bitmapScan_found fb c 0 MAX_DATA_BLOCKS_SCALED_DOWN hc
    (fun j hj => by rw [h (0 + j)]; rw [if_pos (by omega)]; omega)
    (by rw [h (0 + c)]; rw [if_neg (by omega)])
  simpa using hfound

theorem writeLoop_zero (buf : Nat → Nat) (fuel : Nat) (w : WLoop) :
    writeLoop buf fuel w 0 = some (w, 0) := by
  cases fuel <;> simp [writeLoop]

set_option maxHeartbeats 1000000 in
theorem writeLocate_fresh (B : Nat → Nat) (L q : Nat) (w : WLoop)
    (hSh : WShape B L (BLOCK_SIZE * q) q w)
    (hlt : BLOCK_SIZE * q < L) (hL : L ≤ MAX_FILE_BYTES) :
    ∃ be w1,
      writeLocate w q = some (Sum.inr (be, (fun _ => 0), w1)) ∧
      be + DATA_BLOCKS_OFFSET = freshAddr q ∧
      w1.rwptr = BLOCK_SIZE * q ∧
      w1.written = BLOCK_SIZE * q ∧
      w1.offs = ((BLOCK_SIZE * q : Nat) : Int) ∧
      w1.disk = w.disk ∧
      w1.node.size = 0 ∧
      (∀ b, b < NUM_DIRECT_POINTERS →
        w1.node.direct b =
          if b < min (q + 1) NUM_DIRECT_POINTERS then DATA_BLOCKS_OFFSET + b else 0) ∧
      w1.node.indirect =
        (if q + 1 ≤ NUM_DIRECT_POINTERS then 0
         else DATA_BLOCKS_OFFSET + NUM_DIRECT_POINTERS) ∧
      (w1.didLoad = true ↔ NUM_DIRECT_POINTERS < q + 1) ∧
      (∀ t, w1.ptrBuf t =
        if t + NUM_DIRECT_POINTERS < q + 1 then DATA_BLOCKS_OFFSET + 13 + t else 0) ∧
      (∀ i, upd w1.fb be 1 i = if i < freshAlloc (q + 1) then 1 else 0) := by
  obtain ⟨h1, h2, h3, h4, h5, h6, h7, h8, h9, h10, h11⟩ := hSh
  have hBS : BLOCK_SIZE = 1024 := rfl
  have hND : NUM_DIRECT_POINTERS = 12 := rfl
  have hDO : DATA_BLOCKS_OFFSET = 18 := rfl
  have hMF : MAX_FILE_BYTES = 274432 := rfl
  have hq268 : q < 268 := by rw [hBS] at hlt; rw [hMF] at hL; omega
  by_cases hq12 : q < NUM_DIRECT_POINTERS
  · -- a direct pointer is allocated
    have hfa : freshAlloc q = q := by unfold freshAlloc; rw [if_pos (by omega)]
    have hfa1 : freshAlloc (q + 1) = q + 1 := by unfold freshAlloc; rw [if_pos (by omega)]
    have hfree : get_free_bitmap_address w.fb = (q : Int) := by
      apply getFree_indicator
      · rw [MAX_DATA_BLOCKS_SCALED_DOWN_val]; omega
      · intro i; rw [h9 i, hfa]
    have hd0 : w.node.direct q = 0 := by
      rw [h5 q hq12]; rw [if_neg (by omega)]
    refine ⟨q,
      { w with
          fb := upd w.fb q 1
          node := { w.node with direct := upd w.node.direct q (q + DATA_BLOCKS_OFFSET) } },
      ?_, ?_, h1, h2, h3, rfl, h4, ?_, ?_, ?_, ?_, ?_⟩
    · simp only [writeLocate]
      rw [if_pos hq12]
      rw [if_neg (show ¬ (0 < w.node.direct q) from by rw [hd0]; decide)]
      rw [hfree]
      rw [if_neg (show ¬ ((q : Int) = -1) from by omega)]
      rfl
    · unfold freshAddr
      rw [if_pos hq12]
      omega
    · intro b hb
      dsimp only
      by_cases hbq : b = q
      · subst hbq
        rw [upd_same]
        rw [if_pos (by omega)]
        omega
      · rw [upd_other _ _ _ _ hbq, h5 b hb]
        by_cases hbm : b < min q NUM_DIRECT_POINTERS
        · rw [if_pos hbm, if_pos (by omega)]
        · rw [if_neg hbm, if_neg (by omega)]
    · dsimp only
      rw [h6]
      rw [if_pos (by omega), if_pos (by omega)]
    · dsimp only
      constructor
      · intro hdl; exact absurd (h7.mp hdl) (by omega)
      · intro hcon; exact absurd hcon (by omega)
    · intro t
      dsimp only
      rw [h8 t]
      rw [if_neg (by omega), if_neg (by omega)]
    · intro i
      dsimp only
      rw [hfa1]
      by_cases hiq : i = q
      · subst hiq; rw [upd_same, if_pos (by omega)]
      · rw [upd_other _ _ _ _ hiq, upd_other _ _ _ _ hiq, h9 i, hfa]
        by_cases hi : i < q
        · rw [if_pos hi, if_pos (by omega)]
        · rw [if_neg hi, if_neg (by omega)]
  · by_cases hqe : q ≤ NUM_DIRECT_POINTERS
    · -- q = 12: the indirect index block and its first slot are allocated
      have hq' : q = 12 := by omega
      subst hq'
      have hind0 : w.node.indirect = 0 := by
        rw [h6]; rw [if_pos (by decide)]
      have hi9 : ∀ i, w.fb i = if i < 12 then 1 else 0 := fun i => by rw [h9 i]; rfl
      have hfree : get_free_bitmap_address w.fb = ((12 : Nat) : Int) := by
        apply getFree_indicator
        · decide
        · exact hi9
      have hfree2 : get_free_bitmap_address (upd w.fb ((12 : Nat) : Int).toNat 1) =
          ((13 : Nat) : Int) := by
        show get_free_bitmap_address (upd w.fb 12 1) = ((13 : Nat) : Int)
        apply getFree_indicator
        · decide
        · intro i
          by_cases hi12 : i = 12
          · subst hi12; rw [upd_same]; decide
          · rw [upd_other _ _ _ _ hi12, hi9 i]
            by_cases hi : i < 12
            · rw [if_pos hi, if_pos (by omega)]
            · rw [if_neg hi, if_neg (by omega)]
      refine ⟨13,
        { w with
            fb := upd (upd w.fb 12 1) 13 1
            ptrBuf := upd (fun _ => 0) 0 (13 + DATA_BLOCKS_OFFSET)
            didLoad := true
            node := { w.node with indirect := 12 + DATA_BLOCKS_OFFSET } },
        ?_, ?_, h1, h2, h3, rfl, h4, ?_, ?_, ?_, ?_, ?_⟩
      · simp only [writeLocate]
        rw [if_neg (show ¬ (12 < NUM_DIRECT_POINTERS) from by decide)]
        rw [hind0, hfree]
        rw [if_pos (show (0 : Nat) = 0 from rfl)]
        rw [if_neg (show ¬ (((12 : Nat) : Int) = -1) from by decide)]
        rw [if_neg (show ¬ ((0 : Nat) = 0 ∧ ((12 : Nat) : Int) = -1) from by decide)]
        dsimp only
        rw [hfree2]
        rfl
      · decide
      · intro b hb
        dsimp only
        rw [h5 b hb]
        by_cases hbm : b < min 12 NUM_DIRECT_POINTERS
        · rw [if_pos hbm, if_pos (by omega)]
        · rw [if_neg hbm, if_neg (by omega)]
      · dsimp only
        decide
      · dsimp only
        decide
      · intro t
        dsimp only
        by_cases ht : t = 0
        · subst ht
          rw [upd_same]
          rw [if_pos (by decide)]
          decide
        · rw [upd_other _ _ _ _ ht]
          rw [if_neg (by omega)]
      · intro i
        dsimp only
        by_cases h13 : i = 13
        · subst h13; rw [upd_same]; decide
        · rw [upd_other _ _ _ _ h13, upd_other _ _ _ _ h13]
          by_cases h12i : i = 12
          · subst h12i; rw [upd_same]; decide
          · rw [upd_other _ _ _ _ h12i, hi9 i]
            have hfa13 : freshAlloc (12 + 1) = 14 := by decide
            rw [hfa13]
            by_cases hi : i < 12
            · rw [if_pos hi, if_pos (by omega)]
            · rw [if_neg hi, if_neg (by omega)]
    · -- 12 < q: a fresh slot of the already-loaded indirect buffer
      have hqgt : NUM_DIRECT_POINTERS < q := by omega
      have hfa : freshAlloc q = q + 1 := by unfold freshAlloc; rw [if_neg (by omega)]
      have hfa1 : freshAlloc (q + 1) = q + 2 := by unfold freshAlloc; rw [if_neg (by omega)]
      have hfree : get_free_bitmap_address w.fb = ((q + 1 : Nat) : Int) := by
        apply getFree_indicator
        · rw [MAX_DATA_BLOCKS_SCALED_DOWN_val]; omega
        · intro i; rw [h9 i, hfa]
      have hind : w.node.indirect = DATA_BLOCKS_OFFSET + NUM_DIRECT_POINTERS := by
        rw [h6]; rw [if_neg (by omega)]
      have hdl : w.didLoad = true := h7.mpr hqgt
      have hslot : w.ptrBuf (q - NUM_DIRECT_POINTERS) = 0 := by
        rw [h8]; rw [if_neg (by omega)]
      refine ⟨q + 1,
        { w with
            fb := upd w.fb (q + 1) 1
            ptrBuf := upd w.ptrBuf (q - NUM_DIRECT_POINTERS) ((q + 1) + DATA_BLOCKS_OFFSET) },
        ?_, ?_, h1, h2, h3, rfl, h4, ?_, ?_, ?_, ?_, ?_⟩
      · simp only [writeLocate]
        rw [if_neg hq12]
        rw [hind]
        rw [if_neg (show ¬ (DATA_BLOCKS_OFFSET + NUM_DIRECT_POINTERS = 0) from by decide)]
        rw [hdl, hslot, hfree]
        rw [if_neg (show ¬ ((q + 1 : Nat) : Int) = -1 from by omega)]
        rw [if_neg (show ¬ (DATA_BLOCKS_OFFSET + NUM_DIRECT_POINTERS = 0 ∧
              ((q + 1 : Nat) : Int) = -1) from fun hc => absurd hc.1 (by decide))]
        rfl
      · unfold freshAddr
        rw [if_neg hq12]
        omega
      · intro b hb
        dsimp only
        rw [h5 b hb]
        by_cases hbm : b < min q NUM_DIRECT_POINTERS
        · rw [if_pos hbm, if_pos (by omega)]
        · rw [if_neg hbm, if_neg (by omega)]
      · dsimp only
        rw [hind]
        rw [if_neg (by omega)]
      · dsimp only
        rw [hdl]
        constructor
        · intro _; omega
        · intro _; rfl
      · intro t
        dsimp only
        by_cases ht : t = q - NUM_DIRECT_POINTERS
        · subst ht
          rw [upd_same]
          rw [if_pos (by omega)]
          omega
        · rw [upd_other _ _ _ _ ht, h8 t]
          by_cases hto : t + NUM_DIRECT_POINTERS < q
          · rw [if_pos hto, if_pos (by omega)]
          · rw [if_neg hto, if_neg (by omega)]
      · intro i
        dsimp only
        rw [hfa1]
        by_cases hi1 : i = q + 1
        · subst hi1; rw [upd_same, if_pos (by omega)]
        · rw [upd_other _ _ _ _ hi1, upd_other _ _ _ _ hi1, h9 i, hfa]
          by_cases hi : i < q + 1
          · rw [if_pos hi, if_pos (by omega)]
          · rw [if_neg hi, if_neg (by omega)]

set_option maxHeartbeats 1600000 in
theorem writeLoop_fresh (B : Nat → Nat) (L : Nat) (hL : L ≤ MAX_FILE_BYTES) :
    ∀ fuel q w, WShape B L (BLOCK_SIZE * q) q w → BLOCK_SIZE * q < L →
      L - BLOCK_SIZE * q ≤ fuel →
      ∃ wF, writeLoop B fuel w (L - BLOCK_SIZE * q) = some (wF, 0) ∧
        WShape B L L (blocksFor L) wF := by
  have hBS : BLOCK_SIZE = 1024 := rfl
  have hMF : MAX_FILE_BYTES = 274432 := rfl
  intro fuel
  induction fuel with
  | zero =>
    intro q w _ hlt hf
    exfalso
    omega
  | succ fuel ih =>
    intro q w hSh hlt hf
    have hq268 : q < 268 := by
      have hlt' := hlt
      have hL' := hL
      rw [hBS] at hlt'
      rw [hMF] at hL'
      omega
    obtain ⟨be, w1, heq, hbe, hw1r, hw1w, hw1o, hw1d, hw1s, hdir, hind, hload, hptr, hfb⟩ :=
      writeLocate_fresh B L q w hSh hlt hL
    obtain ⟨h1, h2, h3, h4, h5, h6, h7, h8, h9, h10, h11⟩ := hSh
    have hdiv : w.rwptr / BLOCK_SIZE = q := by rw [h1, hBS]; omega
    have hmod : BLOCK_SIZE * q % BLOCK_SIZE = 0 := by rw [hBS]; omega
    simp only [writeLoop]
    rw [if_neg (show ¬ (L - BLOCK_SIZE * q = 0) from by omega)]
    rw [hdiv]
    rw [if_neg (show ¬ (MAX_DATA_BLOCKS_PER_FILE - 1 ≤ q) from by
      rw [MAX_DATA_BLOCKS_PER_FILE_val]; omega)]
    rw [heq]
    dsimp only
    rw [hw1r, hw1w, hw1o, hmod, Nat.sub_zero]
    by_cases hlast : L - BLOCK_SIZE * q ≤ BLOCK_SIZE
    · -- last iteration: the chunk finishes the request
      rw [min_eq_right hlast, Nat.sub_self, writeLoop_zero]
      refine ⟨_, rfl, ?_⟩
      have hQ : blocksFor L = q + 1 := by
        have hlt' := hlt
        have hlast' := hlast
        rw [hBS] at hlt' hlast'
        unfold blocksFor
        rw [hBS]
        omega
      rw [hQ]
      refine ⟨by dsimp only; omega, by dsimp only; omega, by dsimp only; omega,
        hw1s, hdir, hind, hload, hptr, hfb, ?_, ?_⟩
      · intro b hb o
        dsimp only
        by_cases hbq : b = q
        · subst hbq
          rw [show freshAddr b = be + DATA_BLOCKS_OFFSET from hbe.symm, upd_same]
          by_cases ho : o < L - BLOCK_SIZE * b
          · rw [memcpy_in _ _ _ _ _ _ (by omega) (by omega), Nat.sub_zero]
            rw [if_pos (by omega)]
          · rw [memcpy_out _ _ _ _ _ _ (by omega)]
            rw [if_neg (by omega)]
        · rw [upd_other _ _ _ _ (show freshAddr b ≠ be + DATA_BLOCKS_OFFSET from by
            rw [hbe]; exact freshAddr_inj hbq)]
          rw [hw1d]
          exact h10 b (by omega) o
      · intro a ha o
        dsimp only
        rw [upd_other _ _ _ _ (show a ≠ be + DATA_BLOCKS_OFFSET from by
          rw [hbe]; exact ha q (by omega))]
        rw [hw1d]
        exact h11 a (fun b hb => ha b (by omega)) o
    · -- a full block was written; recurse at q + 1
      rw [min_eq_left (by omega)]
      rw [show L - BLOCK_SIZE * q - BLOCK_SIZE = L - BLOCK_SIZE * (q + 1) from by
        rw [hBS]; omega]
      apply ih (q + 1)
      · refine ⟨by dsimp only; rw [hBS]; omega, by dsimp only; rw [hBS]; omega,
          by dsimp only; rw [hBS]; omega,
          hw1s, hdir, hind, hload, hptr, hfb, ?_, ?_⟩
        · intro b hb o
          dsimp only
          by_cases hbq : b = q
          · subst hbq
            rw [show freshAddr b = be + DATA_BLOCKS_OFFSET from hbe.symm, upd_same]
            by_cases ho : o < BLOCK_SIZE
            · rw [memcpy_in _ _ _ _ _ _ (by omega) (by omega), Nat.sub_zero]
              rw [if_pos (by omega)]
            · rw [memcpy_out _ _ _ _ _ _ (by omega)]
              rw [if_neg (by omega)]
          · rw [upd_other _ _ _ _ (show freshAddr b ≠ be + DATA_BLOCKS_OFFSET from by
              rw [hbe]; exact freshAddr_inj hbq)]
            rw [hw1d]
            exact h10 b (by omega) o
        · intro a ha o
          dsimp only
          rw [upd_other _ _ _ _ (show a ≠ be + DATA_BLOCKS_OFFSET from by
            rw [hbe]; exact ha q (by omega))]
          rw [hw1d]
          exact h11 a (fun b hb => ha b (by omega)) o
      · rw [hBS]
        have hlast' := hlast
        rw [hBS] at hlast'
        omega
      · have hlast' := hlast
        have hf' := hf
        rw [hBS] at hlast' hf' ⊢
        omega

set_option maxRecDepth 8000 in
theorem c1_open1 : sfs_fopen freshFS "f" = (1, c1s1) := rfl

set_option maxRecDepth 8000 in
theorem c1s1_fdt1 : c1s1.fdt (1 : Int).toNat = ⟨((1 : Nat) : Int), 0⟩ := rfl

set_option maxRecDepth 8000 in
theorem c1s1_fdt_rest : ∀ j, j < 128 → 2 ≤ j → (c1s1.fdt j).inode = -1 := by decide

set_option maxRecDepth 8000 in
theorem c1s1_root_uniq : ∀ j, j < 127 → "f" = (c1s1.root j).names → j = 0 := by decide

set_option maxRecDepth 8000 in
set_option maxHeartbeats 1600000 in
theorem c1_write (B : Nat → Nat) (L : Nat) (hpos : 0 < L) (hmax : L ≤ MAX_FILE_BYTES) :
    ∃ s2, sfs_fwrite c1s1 1 B (L : Int) = some ((L : Int), s2) ∧
      s2.root = c1s1.root ∧
      s2.fdt = upd c1s1.fdt 1 ⟨((1 : Nat) : Int), L⟩ ∧
      (s2.inodes 1).size = L ∧
      (∀ b, b < blocksFor L → fileBlockAddr (s2.inodes 1) s2.disk b = freshAddr b) ∧
      (∀ b, b < blocksFor L → ∀ o, s2.disk (freshAddr b) o =
        if o < BLOCK_SIZE ∧ BLOCK_SIZE * b + o < L then B (BLOCK_SIZE * b + o) else 0) := by
  have hBS : BLOCK_SIZE = 1024 := rfl
  have hMF : MAX_FILE_BYTES = 274432 := rfl
  have hND : NUM_DIRECT_POINTERS = 12 := rfl
  have hDO : DATA_BLOCKS_OFFSET = 18 := rfl
  have hQbound : blocksFor L ≤ 268 := by
    unfold blocksFor
    rw [hBS]
    rw [hMF] at hmax
    omega
  have hW0 : WShape B L (BLOCK_SIZE * 0) 0
      (fwriteInit c1s1 ⟨((1 : Nat) : Int), 0⟩ (c1s1.inodes 1)) := by
    refine ⟨rfl, rfl, by decide, by decide, by decide, by decide, by decide,
      ?_, ?_, ?_, ?_⟩
    · intro t
      rw [if_neg (by omega)]
      rfl
    · intro i
      have hfa0 : freshAlloc 0 = 0 := rfl
      rw [hfa0, if_neg (by omega)]
      rfl
    · intro b hb
      exact absurd hb (by omega)
    · intro a _ o
      rfl
  obtain ⟨wF, hloop, hWF⟩ := writeLoop_fresh B L hmax L 0
    (fwriteInit c1s1 ⟨((1 : Nat) : Int), 0⟩ (c1s1.inodes 1)) hW0 (by omega) (by omega)
  obtain ⟨k1, k2, k3, k4, k5, k6, k7, k8, k9, k10, k11⟩ := hWF
  have hloop' : writeLoop B L (fwriteInit c1s1 ⟨((1 : Nat) : Int), 0⟩ (c1s1.inodes 1)) L =
      some (wF, 0) := hloop
  unfold sfs_fwrite
  rw [if_neg (show ¬ ((L : Int) ≤ 0) from by omega)]
  rw [if_neg (show ¬ ((1 : Int) < 0 ∨ ((NUM_INODES : Nat) : Int) ≤ 1) from by decide)]
  dsimp only
  simp only [c1s1_fdt1]
  rw [if_neg (show ¬ (((1 : Nat) : Int) ≤ 0) from by decide)]
  rw [if_neg (show ¬ (((NUM_INODES : Nat) : Int) ≤ ((1 : Nat) : Int)) from by decide)]
  simp only [Int.toNat_ofNat]
  rw [if_neg (show ¬ ((c1s1.inodes 1).size < 0 ∨
      MAX_DATA_BLOCKS_PER_FILE * BLOCK_SIZE ≤ 0) from by decide)]
  simp only [hloop']
  rw [if_pos (show (0 : Nat) ≠ L from by omega)]
  rw [k2, k3]
  rw [if_pos (show (0 : Int) < ((L : Nat) : Int) from by omega)]
  rw [k1, k4]
  simp only [Int.toNat_ofNat, Nat.zero_add]
  refine ⟨_, rfl, rfl, rfl, rfl, ?_, ?_⟩
  · intro b hb
    dsimp only
    rw [upd_same]
    unfold fileBlockAddr
    dsimp only
    by_cases hb12 : b < NUM_DIRECT_POINTERS
    · rw [if_pos hb12, k5 b hb12, if_pos (by omega)]
      unfold freshAddr
      rw [if_pos hb12]
    · rw [if_neg hb12]
      have h12Q : NUM_DIRECT_POINTERS < blocksFor L := by omega
      have hdl : wF.didLoad = true := k7.mpr h12Q
      have hindv : wF.node.indirect = DATA_BLOCKS_OFFSET + NUM_DIRECT_POINTERS := by
        rw [k6, if_neg (by omega)]
      rw [hindv]
      rw [if_neg (show ¬ (DATA_BLOCKS_OFFSET + NUM_DIRECT_POINTERS = 0) from by decide)]
      rw [hdl]
      rw [if_pos rfl]
      rw [upd_same]
      rw [decodePtrs_encodePtrs wF.ptrBuf (b - NUM_DIRECT_POINTERS) (by
        rw [k8]
        have h32 : (2 : Nat) ^ 32 = 4294967296 := by norm_num
        split_ifs <;> omega)]
      rw [k8]
      rw [if_pos (by omega)]
      unfold freshAddr
      rw [if_neg hb12]
  · intro b hb o
    dsimp only
    by_cases hdl : wF.didLoad = true
    · rw [hdl]
      rw [if_pos rfl]
      have h12Q : NUM_DIRECT_POINTERS < blocksFor L := k7.mp hdl
      have hindv : wF.node.indirect = DATA_BLOCKS_OFFSET + NUM_DIRECT_POINTERS := by
        rw [k6, if_neg (by omega)]
      rw [hindv]
      rw [upd_other _ _ _ _ (freshAddr_ne_index b)]
      exact k10 b hb o
    · rw [if_neg hdl]
      exact k10 b hb o

set_option maxRecDepth 8000 in
theorem c1_dirfind : dirFindFirst c1s1.root "f" 0 NUM_FILE_INODES = some 0 := rfl

theorem fileBlockAddr_congr (nd1 nd2 : Inode) (dk : Nat → Nat → Nat) (b : Nat)
    (h1 : nd1.direct = nd2.direct) (h2 : nd1.indirect = nd2.indirect) :
    fileBlockAddr nd1 dk b = fileBlockAddr nd2 dk b := by
  unfold fileBlockAddr
  rw [h1, h2]

set_option maxRecDepth 8000 in
set_option maxHeartbeats 1600000 in
theorem c1_reopen (s2 : FS) (L : Nat)
    (hroot2 : s2.root = c1s1.root)
    (hfdt2 : s2.fdt = upd c1s1.fdt 1 ⟨((1 : Nat) : Int), L⟩)
    (hsz2 : (s2.inodes 1).size = L) :
    ∃ s3 s4 s5,
      sfs_fclose s2 1 = (0, s3) ∧
      sfs_fopen s3 "f" = (((1 : Nat) : Int), s4) ∧
      sfs_fseek s4 1 0 = some (0, s5) ∧
      s5.disk = s2.disk ∧
      s5.fdt (1 : Int).toNat = ⟨((1 : Nat) : Int), 0⟩ ∧
      (s5.inodes 1).size = L ∧
      (s5.inodes 1).direct = (s2.inodes 1).direct ∧
      (s5.inodes 1).indirect = (s2.inodes 1).indirect := by
  have hfind : dirFindFirst s2.root "f" 0 NUM_FILE_INODES = some 0 := by
    rw [hroot2]; exact c1_dirfind
  have hnodup : ∀ k, k < NUM_INODES - 1 →
      ((upd s2.fdt 1 ⟨-1, 0⟩) (1 + k)).inode ≠ ((0 : Nat) : Int) + 1 := by
    intro k hk
    by_cases hk0 : k = 0
    · subst hk0
      show ((upd s2.fdt 1 ⟨-1, 0⟩) 1).inode ≠ ((0 : Nat) : Int) + 1
      rw [upd_same]
      decide
    · rw [upd_other _ _ _ _ (by omega), hfdt2, upd_other _ _ _ _ (by omega)]
      rw [c1s1_fdt_rest (1 + k) (by rw [NUM_INODES_val] at hk; omega) (by omega)]
      decide
  have hscan : fopenFdScan (upd s2.fdt 1 ⟨-1, 0⟩) (((0 : Nat) : Int) + 1) 1
      (NUM_INODES - 1) (-1) = some ((1 : Nat) : Int) := by
    refine (fopenFdScan_free _ _ _ _ hnodup).trans ?_
    rw [fdtFindFree_found (upd s2.fdt 1 ⟨-1, 0⟩) 0 1 (NUM_INODES - 1)
      (by rw [NUM_INODES_val]; omega)
      (fun j hj => absurd hj (by omega))
      (by show ((upd s2.fdt 1 ⟨-1, 0⟩) 1).inode = -1; rw [upd_same])]
  have hsize : sfs_getfilesize ({ s2 with fdt := upd s2.fdt 1 ⟨-1, 0⟩ } : FS) "f" =
      ((L : Nat) : Int) := by
    show getfilesizeAux s2.root s2.inodes "f" 0 NUM_FILE_INODES (-1) = ((L : Nat) : Int)
    rw [hroot2]
    rw [getfilesizeAux_unique c1s1.root s2.inodes "f" 0 NUM_FILE_INODES 0 (-1) (by omega)
      (by rw [NUM_FILE_INODES_val]; omega) (by decide)
      (fun j _ hj2 hje => c1s1_root_uniq j (by rw [NUM_FILE_INODES_val] at hj2; omega) hje)]
    show ((s2.inodes 1).size : Int) = ((L : Nat) : Int)
    rw [hsz2]
  refine ⟨{ s2 with fdt := upd s2.fdt 1 ⟨-1, 0⟩ },
    { s2 with
        fdt := upd (upd s2.fdt 1 ⟨-1, 0⟩) 1 ⟨((0 : Nat) : Int) + 1, L⟩
        root := upd s2.root 0 { s2.root 0 with mode := 1 }
        inodes := upd s2.inodes 1 { s2.inodes 1 with link_cnt := 1 } },
    { s2 with
        fdt := upd (upd (upd s2.fdt 1 ⟨-1, 0⟩) 1 ⟨((0 : Nat) : Int) + 1, L⟩) 1
          ⟨((0 : Nat) : Int) + 1, 0⟩
        root := upd s2.root 0 { s2.root 0 with mode := 1 }
        inodes := upd s2.inodes 1 { s2.inodes 1 with link_cnt := 1 } },
    ?_, ?_, ?_, rfl, ?_, ?_, ?_, ?_⟩
  · unfold sfs_fclose
    rw [if_pos (show (0 : Int) < 1 ∧ (1 : Int) < ((NUM_INODES : Nat) : Int) from by decide)]
    rw [if_pos (show (s2.fdt (1 : Int).toNat).inode ≠ -1 from by
      rw [hfdt2]
      show ((upd c1s1.fdt 1 ⟨((1 : Nat) : Int), L⟩) 1).inode ≠ -1
      rw [upd_same]
      show ((1 : Nat) : Int) ≠ -1
      decide)]
    rfl
  · unfold sfs_fopen
    rw [if_neg (show ¬ (MAX_FILENAME ≤ ("f" : String).length) from by decide)]
    dsimp only
    simp only [hfind]
    simp only [hscan]
    rw [if_neg (show ¬ (((1 : Nat) : Int) = -1) from by decide)]
    rw [hsize]
    rfl
  · unfold sfs_fseek
    rw [if_pos (show (0 : Int) < 1 ∧ (1 : Int) < ((NUM_INODES : Nat) : Int) from by decide)]
    dsimp only
    rw [show (upd (upd s2.fdt 1 ⟨-1, 0⟩) 1 ⟨((0 : Nat) : Int) + 1, L⟩) (1 : Int).toNat =
        ⟨((0 : Nat) : Int) + 1, L⟩ from by
      show (upd (upd s2.fdt 1 ⟨-1, 0⟩) 1 ⟨((0 : Nat) : Int) + 1, L⟩) 1 = _
      rw [upd_same]]
    rw [if_neg (show ¬ (((0 : Nat) : Int) + 1 = -1 ∨ ((0 : Nat) : Int) + 1 = 0 ∨
        (0 : Int) < 0) from by decide)]
    rw [if_neg (show ¬ (((0 : Nat) : Int) + 1 < 0 ∨
        ((NUM_INODES : Nat) : Int) ≤ ((0 : Nat) : Int) + 1) from by decide)]
    rw [if_neg (show ¬ ((((upd s2.inodes 1 { s2.inodes 1 with link_cnt := 1 })
          ((((0 : Nat) : Int) + 1).toNat)).size : Int) < 0 ∨
        ((MAX_DATA_BLOCKS_PER_FILE * BLOCK_SIZE : Nat) : Int) ≤ 0) from by
      rw [seek_bound_val]
      omega)]
    rfl
  · show ((upd (upd (upd s2.fdt 1 ⟨-1, 0⟩) 1 ⟨((0 : Nat) : Int) + 1, L⟩) 1
        ⟨((0 : Nat) : Int) + 1, 0⟩) 1) = ⟨((1 : Nat) : Int), 0⟩
    rw [upd_same]
    rfl
  · show ((upd s2.inodes 1 { s2.inodes 1 with link_cnt := 1 }) 1).size = L
    rw [upd_same]
    exact hsz2
  · show ((upd s2.inodes 1 { s2.inodes 1 with link_cnt := 1 }) 1).direct =
      (s2.inodes 1).direct
    rw [upd_same]
  · show ((upd s2.inodes 1 { s2.inodes 1 with link_cnt := 1 }) 1).indirect =
      (s2.inodes 1).indirect
    rw [upd_same]

theorem freshAddr_pos (b : Nat) : 0 < freshAddr b := by
  unfold freshAddr
  have hd : DATA_BLOCKS_OFFSET = 18 := rfl
  rw [hd]
  split_ifs <;> omega

set_option maxRecDepth 8000 in
set_option maxHeartbeats 1600000 in
/-- Claim C1: round-trip law — for every byte string `B` of length `L` with
`0 < L ≤ MAX_FILE_BYTES`, from a freshly mounted filesystem the sequence
`open "f"; write fd B L; close fd; fd2 = open "f"; seek fd2 0;
read fd2 buf L` opens descriptor 1 both times, the write and the read both
return `L`, and the caller's buffer afterwards holds exactly the bytes of
`B` on `[0, L)`. -/
theorem C1_round_trip (B : Nat → Nat) (L : Nat) (buf : Nat → Nat)
    (hpos : 0 < L) (hmax : L ≤ MAX_FILE_BYTES) :
    ∃ s1 s2 s3 s4 s5 out s6,
      sfs_fopen freshFS "f" = (1, s1) ∧
      sfs_fwrite s1 1 B (L : Int) = some ((L : Int), s2) ∧
      sfs_fclose s2 1 = (0, s3) ∧
      sfs_fopen s3 "f" = (((1 : Nat) : Int), s4) ∧
      sfs_fseek s4 1 0 = some (0, s5) ∧
      sfs_fread s5 1 buf (L : Int) = some ((L : Int), out, s6) ∧
      (∀ k, k < L → out k = B k) := by
  have hBS : BLOCK_SIZE = 1024 := rfl
  obtain ⟨s2, hw, hroot2, hfdt2, hsz2, hblk2, hdat2⟩ := c1_write B L hpos hmax
  obtain ⟨s3, s4, s5, hclose, hopen2, hseek, hdisk5, h5fdt, h5sz, h5dir, h5ind⟩ :=
    c1_reopen s2 L hroot2 hfdt2 hsz2
  have hblk5 : ∀ b, b < blocksFor L → fileBlockAddr (s5.inodes 1) s5.disk b = freshAddr b := by
    intro b hb
    rw [hdisk5, fileBlockAddr_congr (s5.inodes 1) (s2.inodes 1) s2.disk b h5dir h5ind]
    exact hblk2 b hb
  have hfb : ∀ k, k < L → fileByte (s5.inodes 1) s5.disk k = B k := by
    intro k hk
    unfold fileByte
    rw [hblk5 (k / BLOCK_SIZE) (by unfold blocksFor; rw [hBS] at *; omega)]
    rw [hdisk5]
    rw [hdat2 (k / BLOCK_SIZE) (by unfold blocksFor; rw [hBS] at *; omega) (k % BLOCK_SIZE)]
    rw [if_pos (by rw [hBS] at *; constructor <;> omega)]
    rw [show BLOCK_SIZE * (k / BLOCK_SIZE) + k % BLOCK_SIZE = k from by rw [hBS]; omega]
  obtain ⟨ih1, ih2, ih3⟩ := readLoop_spec s5.disk (s5.inodes 1) buf L L
    { rwptr := 0, out := buf, bytesRead := 0, ptrBuf := fun _ => 0, didLoad := false }
    (le_refl _)
    (by dsimp only; omega)
    (by
      dsimp only
      intro b hb1 hb2
      rw [hblk5 b (by rw [Nat.zero_add] at hb2; exact hb2)]
      have := freshAddr_pos b
      omega)
    (by simp)
  dsimp only at ih1 ih2 ih3
  refine ⟨c1s1, s2, s3, s4, s5,
    (readLoop s5.disk (s5.inodes 1) buf L
      { rwptr := 0, out := buf, bytesRead := 0, ptrBuf := fun _ => 0, didLoad := false } L).out,
    { s5 with fdt := upd s5.fdt 1 ⟨((1 : Nat) : Int), L⟩ },
    c1_open1, hw, hclose, hopen2, hseek, ?_, ?_⟩
  · unfold sfs_fread
    rw [if_neg (show ¬ ((L : Int) ≤ 0) from by omega)]
    rw [if_neg (show ¬ ((1 : Int) < 0 ∨ ((NUM_INODES : Nat) : Int) ≤ 1) from by decide)]
    dsimp only
    simp only [h5fdt]
    rw [if_neg (show ¬ (((1 : Nat) : Int) ≤ 0) from by decide)]
    rw [if_neg (show ¬ (((NUM_INODES : Nat) : Int) ≤ ((1 : Nat) : Int)) from by decide)]
    simp only [Int.toNat_ofNat]
    rw [if_neg (show ¬ ((s5.inodes 1).size ≤ 0) from by rw [h5sz]; omega)]
    rw [h5sz]
    simp only [Nat.sub_zero, min_self]
    rw [ih1, ih2]
    simp only [Nat.zero_add]
    rfl
  · intro k hk
    rw [ih3 k]
    rw [if_pos (by omega)]
    rw [Nat.sub_zero, Nat.zero_add]
    exact hfb k hk

/-- Claim C1, witness: the round trip applied to the concrete 5-byte string
of value 65 (both hypotheses hold at `L = 5`). -/
theorem C1_witness :
    (0 < 5 ∧ 5 ≤ MAX_FILE_BYTES) ∧
    ∃ s1 s2 s3 s4 s5 out s6,
      sfs_fopen freshFS "f" = (1, s1) ∧
      sfs_fwrite s1 1 (fun _ => 65) ((5 : Nat) : Int) = some (((5 : Nat) : Int), s2) ∧
      sfs_fclose s2 1 = (0, s3) ∧
      sfs_fopen s3 "f" = (((1 : Nat) : Int), s4) ∧
      sfs_fseek s4 1 0 = some (0, s5) ∧
      sfs_fread s5 1 (fun _ => 0) ((5 : Nat) : Int) = some (((5 : Nat) : Int), out, s6) ∧
      (∀ k, k < 5 → out k = (fun _ => 65) k) :=
  ⟨⟨by decide, by decide⟩,
    C1_round_trip (fun _ => 65) 5 (fun _ => 0) (by decide) (by decide)⟩
